import Mathlib

/-!
Verification development for the Constellation file-tagging index
(Rust/Tauri application).  The definitions below are shallow embeddings of
the application's core: the CQL query language (parser helpers and the SQL
executor), the search service, the search-history repository, the tag and
tag-group repositories, the item repository's tag associations, and the USN
refresh service's checkpoint logic.  Rust strings are modelled as `List Char`,
64-bit integers as `Int` (the operations involved never overflow on the
values considered), and fallible functions return `Except`/`Option`.
-/

set_option maxRecDepth 10000

/-! ## CQL abstract syntax tree (src-tauri/src/domain/search/ast.rs) -/

/-- Known queryable fields (enum `Field`). `typ` stands for the source's
`Type` variant (`type` is reserved in Lean). -/
inductive CqlField where
  | tag
  | name
  | size
  | modified
  | typ
deriving DecidableEq, Repr

/-- Comparison operators (enum `ComparisonOp`). -/
inductive ComparisonOp where
  | eq
  | notEq
  | like
  | gt
  | lt
  | gte
  | lte
deriving DecidableEq, Repr

/-- Typed values after parsing (enum `Value`).  The source's `Number(f64)` is
modelled exactly as a decimal `mantissa / 10 ^ scale`; every numeric literal
reachable through the claims is exactly representable in `f64`, and no claim
depends on `f64` rounding. -/
inductive CqlValue where
  | str (s : List Char)
  | num (mantissa : Int) (scale : Nat)
  | sizeBytes (n : Int)
  | timestamp (n : Int)
deriving DecidableEq, Repr

/-- Parsed CQL expression tree (enum `Expr`). -/
inductive CqlExpr where
  | comparison (field : CqlField) (op : ComparisonOp) (value : CqlValue)
  | inExpr (field : CqlField) (values : List CqlValue)
  | and (left right : CqlExpr)
  | or (left right : CqlExpr)
  | not (inner : CqlExpr)
deriving DecidableEq, Repr

/-- CQL parse errors (src-tauri/src/domain/search/error.rs).  Error payloads
carry the offending input instead of the formatted message. -/
inductive CqlParseError where
  | emptyQuery
  | syntaxError (msg : List Char)
  | invalidField (s : List Char)
  | invalidSize (s : List Char)
  | invalidDate (s : List Char)
  | invalidOperator (field op : List Char)
  | internalError (msg : List Char)
deriving DecidableEq, Repr

/-- `Field::from_str` (ast.rs): case-insensitive match on the field name. -/
def fieldFromStr (s : List Char) : Option CqlField :=
  let l := s.map Char.toLower
  if l = "tag".data then some CqlField.tag
  else if l = "name".data then some CqlField.name
  else if l = "size".data then some CqlField.size
  else if l = "modified".data then some CqlField.modified
  else if l = "type".data then some CqlField.typ
  else none

/-- `ComparisonOp::from_str` (ast.rs). -/
def comparisonOpFromStr (s : List Char) : Option ComparisonOp :=
  if s = "=".data then some ComparisonOp.eq
  else if s = "!=".data then some ComparisonOp.notEq
  else if s = "~".data then some ComparisonOp.like
  else if s = ">".data then some ComparisonOp.gt
  else if s = "<".data then some ComparisonOp.lt
  else if s = ">=".data then some ComparisonOp.gte
  else if s = "<=".data then some ComparisonOp.lte
  else none

/-! ## Parser value helpers (src-tauri/src/domain/search/parser.rs) -/

/-- `unescape_string` (parser.rs): resolves `\\`, `\"`, `\n`, `\t`; any other
backslash-plus-character pair is kept verbatim; a trailing lone backslash is
kept. -/
def unescapeString : List Char → List Char
  | [] => []
  | c :: rest =>
    if c = '\\' then
      match rest with
      | [] => ['\\']
      | next :: r =>
        if next = '"' then '"' :: unescapeString r
        else if next = '\\' then '\\' :: unescapeString r
        else if next = 'n' then '\n' :: unescapeString r
        else if next = 't' then '\t' :: unescapeString r
        else '\\' :: next :: unescapeString r
    else c :: unescapeString rest

/-- Numeric value of a list of decimal digit characters, most significant
first (the accumulator form used by integer parsing). -/
def digitsToNat (l : List Char) : Nat :=
  l.foldl (fun a c => a * 10 + (c.toNat - 48)) 0

/-- Model of Rust's `str::parse::<f64>` restricted to plain decimal literals
`[+|-] digits [. digits]` (at least one digit).  The result is the exact
value `mantissa / 10 ^ scale`; exponent/inf/nan forms, which no CQL size
literal takes, are not modelled, and `f64` rounding is not modelled (all
values reached by the claims are exactly representable). -/
def parseDecimal (s : List Char) : Option (Int × Nat) :=
  let signAndRest : Int × List Char :=
    match s with
    | '-' :: r => (-1, r)
    | '+' :: r => (1, r)
    | r => (1, r)
  let sign := signAndRest.1
  let rest := signAndRest.2
  let intDigits := rest.takeWhile Char.isDigit
  let rest2 := rest.dropWhile Char.isDigit
  match rest2 with
  | [] =>
    if intDigits.isEmpty then none
    else some (sign * (digitsToNat intDigits : Int), 0)
  | '.' :: fracRest =>
    let fracDigits := fracRest.takeWhile Char.isDigit
    let rest3 := fracRest.dropWhile Char.isDigit
    if rest3.isEmpty && !(intDigits.isEmpty && fracDigits.isEmpty) then
      some (sign * ((digitsToNat intDigits : Int) * 10 ^ fracDigits.length
        + (digitsToNat fracDigits : Int)), fracDigits.length)
    else none
  | _ => none

/-- Helper for `parse_size_to_bytes`: parse the numeric part, scale by the
unit multiplier and truncate toward zero (Rust's `as i64` on the exact
product; `Int.tdiv` is truncating division).  Errors carry the whole
original literal. -/
def sizeWithMult (numStr : List Char) (mult : Int) (orig : List Char) :
    Except CqlParseError Int :=
  match parseDecimal numStr with
  | some (a, k) => Except.ok (Int.tdiv (a * mult) (10 ^ k))
  | none => Except.error (CqlParseError.invalidSize orig)

/-- `parse_size_to_bytes` (parser.rs): case-insensitive suffix `GB`, `MB`,
`KB`, `B` checked in that order (`upper.ends_with u` is rendered as
`take` on the reversal of the uppercased string), multiplier 2^30, 2^20,
2^10, 1, numeric part parsed as a decimal. -/
def parseSizeToBytes (s : List Char) : Except CqlParseError Int :=
  if ((s.map Char.toUpper).reverse).take 2 = ['B', 'G'] then
    sizeWithMult (s.take (s.length - 2)) 1073741824 s
  else if ((s.map Char.toUpper).reverse).take 2 = ['B', 'M'] then
    sizeWithMult (s.take (s.length - 2)) 1048576 s
  else if ((s.map Char.toUpper).reverse).take 2 = ['B', 'K'] then
    sizeWithMult (s.take (s.length - 2)) 1024 s
  else if ((s.map Char.toUpper).reverse).take 1 = ['B'] then
    sizeWithMult (s.take (s.length - 1)) 1 s
  else
    Except.error (CqlParseError.invalidSize s)

/-- Model of Rust's `str::parse::<i32>`: optional sign, then decimal digits,
rejecting the empty digit string and values outside the i32 range. -/
def parseI32 (s : List Char) : Option Int :=
  let signAndRest : Int × List Char :=
    match s with
    | '-' :: r => (-1, r)
    | '+' :: r => (1, r)
    | r => (1, r)
  let sign := signAndRest.1
  let rest := signAndRest.2
  if rest.isEmpty || !rest.all Char.isDigit then none
  else
    let v : Int := sign * (digitsToNat rest : Int)
    if v < -2147483648 || 2147483647 < v then none else some v

/-- Model of Rust's `str::parse::<u32>`: optional plus sign, then decimal
digits, rejecting the empty digit string and values above the u32 range. -/
def parseU32 (s : List Char) : Option Nat :=
  let rest : List Char :=
    match s with
    | '+' :: r => r
    | r => r
  if rest.isEmpty || !rest.all Char.isDigit then none
  else
    let v := digitsToNat rest
    if 4294967295 < v then none else some v

/-- `ymd_to_unix` (parser.rs): Howard Hinnant's civil-from-days algorithm.
Rust's truncating i64 division is `Int.tdiv`; the u32 intermediates are
`Nat` (no wraparound occurs for the validated inputs `month ≥ 1`,
`day ≥ 1`). -/
def ymdToUnix (year : Int) (month day : Nat) : Int :=
  let y : Int := if month ≤ 2 then year - 1 else year
  let era : Int := Int.tdiv (if 0 ≤ y then y else y - 399) 400
  let yoe : Nat := (y - era * 400).toNat
  let m := month
  let doy : Nat := (153 * (if 2 < m then m - 3 else m + 9) + 2) / 5 + day - 1
  let doe : Nat := yoe * 365 + yoe / 4 - yoe / 100 + doy
  let days : Int := era * 146097 + (doe : Int) - 719468
  days * 86400

/-- `parse_date_to_timestamp` (parser.rs): split on `-` into exactly three
parts, parse year as i32 and month/day as u32, validate
`1 ≤ month ≤ 12`, `1 ≤ day ≤ 31`, `year ≥ 1970`, then convert with
`ymd_to_unix`. -/
def parseDateToTimestamp (s : List Char) : Except CqlParseError Int :=
  match s.splitOn '-' with
  | [p0, p1, p2] =>
    match parseI32 p0, parseU32 p1, parseU32 p2 with
    | some year, some month, some day =>
      if month < 1 || 12 < month || day < 1 || 31 < day || year < 1970 then
        Except.error (CqlParseError.invalidDate s)
      else
        Except.ok (ymdToUnix year month day)
    | _, _, _ => Except.error (CqlParseError.invalidDate s)
  | _ => Except.error (CqlParseError.invalidDate s)

deriving instance DecidableEq for Except

/-! ## CQL grammar and parsing (src-tauri/src/domain/search/parser.rs)

The pest grammar file `domain/search/query.pest` is not part of the
sources.  The token shapes and the production structure below are therefore
modelled from the spec: fields are `tag name size modified type`, operators
are `= != ~ > < >= <=`, keywords `AND OR NOT IN` are case-insensitive,
precedence from lowest to highest is OR, AND, NOT, comparison/primary,
parentheses group, values are quoted strings, size literals or bare
numbers.  The AST construction, value conversion and semantic validation
mirror the source functions `build_*`, `parse_value` and
`validate_semantics`. -/

/-- Lexical tokens of the modelled CQL grammar. -/
inductive CqlToken where
  | lparen
  | rparen
  | comma
  | opTok (s : List Char)
  | word (s : List Char)
  | quoted (raw : List Char)
deriving DecidableEq, Repr

/-- Scans the contents of a quoted string up to the unescaped closing quote;
escape pairs are kept verbatim (unescaping happens later in `parse_value`).
Returns the raw contents and the remaining input, or `none` when the quote
is unterminated. -/
def takeQuoted : List Char → Option (List Char × List Char)
  | [] => none
  | '"' :: rest => some ([], rest)
  | '\\' :: c :: rest =>
    (fun p : List Char × List Char => ('\\' :: c :: p.1, p.2)) <$> takeQuoted rest
  | ['\\'] => none
  | c :: rest =>
    (fun p : List Char × List Char => (c :: p.1, p.2)) <$> takeQuoted rest

/-- Characters that may continue a bare word token (field names, keywords,
numbers, size literals). -/
def isWordChar (c : Char) : Bool :=
  !(c.isWhitespace || c = '(' || c = ')' || c = ',' || c = '"'
    || c = '=' || c = '!' || c = '~' || c = '<' || c = '>')

/-- Tokenizer for the modelled grammar.  `fuel` bounds the recursion by the
input length; each step consumes at least one character. -/
def tokenize : Nat → List Char → Except CqlParseError (List CqlToken)
  | _, [] => Except.ok []
  | 0, s => Except.error (CqlParseError.syntaxError s)
  | fuel + 1, c :: rest =>
    if c.isWhitespace then tokenize fuel rest
    else if c = '(' then (CqlToken.lparen :: ·) <$> tokenize fuel rest
    else if c = ')' then (CqlToken.rparen :: ·) <$> tokenize fuel rest
    else if c = ',' then (CqlToken.comma :: ·) <$> tokenize fuel rest
    else if c = '"' then
      match takeQuoted rest with
      | some (raw, rest2) => (CqlToken.quoted raw :: ·) <$> tokenize fuel rest2
      | none => Except.error (CqlParseError.syntaxError (c :: rest))
    else if c = '!' then
      match rest with
      | '=' :: rest2 => (CqlToken.opTok ['!', '='] :: ·) <$> tokenize fuel rest2
      | _ => Except.error (CqlParseError.syntaxError (c :: rest))
    else if c = '>' then
      match rest with
      | '=' :: rest2 => (CqlToken.opTok ['>', '='] :: ·) <$> tokenize fuel rest2
      | _ => (CqlToken.opTok ['>'] :: ·) <$> tokenize fuel rest
    else if c = '<' then
      match rest with
      | '=' :: rest2 => (CqlToken.opTok ['<', '='] :: ·) <$> tokenize fuel rest2
      | _ => (CqlToken.opTok ['<'] :: ·) <$> tokenize fuel rest
    else if c = '=' then (CqlToken.opTok ['='] :: ·) <$> tokenize fuel rest
    else if c = '~' then (CqlToken.opTok ['~'] :: ·) <$> tokenize fuel rest
    else
      let w := c :: rest.takeWhile isWordChar
      (CqlToken.word w :: ·) <$> tokenize fuel (rest.dropWhile isWordChar)

/-- Checks whether a word token is the given case-insensitive keyword. -/
def isKeyword (kw : List Char) (t : CqlToken) : Bool :=
  match t with
  | CqlToken.word w => w.map Char.toLower = kw
  | _ => false

/-- Positional payload for syntax errors: the remaining token count rendered
in decimal (the source formats a pest position; only the error constructor
matters to the claims). -/
def toksLen (toks : List CqlToken) : List Char :=
  Nat.toDigits 10 toks.length

/-- `parse_value` (parser.rs): converts one value token using the field for
type coercion.  Quoted strings are unescaped, and parsed as dates for
`modified`; a word that parses as a plain decimal is a `number` (bytes for
`size`, raw timestamp for `modified`); any other word is a size literal
handled by `parse_size_to_bytes`. -/
def parseValueToken (field : CqlField) (t : CqlToken) :
    Except CqlParseError CqlValue :=
  match t with
  | CqlToken.quoted raw =>
    let unescaped := unescapeString raw
    if field = CqlField.modified then
      CqlValue.timestamp <$> parseDateToTimestamp unescaped
    else
      Except.ok (CqlValue.str unescaped)
  | CqlToken.word w =>
    match parseDecimal w with
    | some (a, k) =>
      if field = CqlField.size then
        Except.ok (CqlValue.sizeBytes (Int.tdiv a (10 ^ k)))
      else if field = CqlField.modified then
        Except.ok (CqlValue.timestamp (Int.tdiv a (10 ^ k)))
      else
        Except.ok (CqlValue.num a k)
    | none => CqlValue.sizeBytes <$> parseSizeToBytes w
  | _ => Except.error (CqlParseError.syntaxError [])

mutual

/-- Modelled `expression` production: `and_expr (OR and_expr)*`,
left-associated as in `build_expression`. -/
def parseOrExpr : Nat → List CqlToken →
    Except CqlParseError (CqlExpr × List CqlToken)
  | 0, toks => Except.error (CqlParseError.internalError (toksLen toks))
  | fuel + 1, toks => do
    let (left, rest) ← parseAndExpr fuel toks
    parseOrRest fuel left rest

/-- Folds further `OR and_expr` clauses onto the left operand. -/
def parseOrRest : Nat → CqlExpr → List CqlToken →
    Except CqlParseError (CqlExpr × List CqlToken)
  | 0, _, toks => Except.error (CqlParseError.internalError (toksLen toks))
  | fuel + 1, left, toks =>
    match toks with
    | t :: rest =>
      if isKeyword "or".data t then do
        let (right, rest2) ← parseAndExpr fuel rest
        parseOrRest fuel (CqlExpr.or left right) rest2
      else
        Except.ok (left, toks)
    | [] => Except.ok (left, [])

/-- Modelled `and_expr` production: `unary_expr (AND unary_expr)*`,
left-associated as in `build_and_expr`. -/
def parseAndExpr : Nat → List CqlToken →
    Except CqlParseError (CqlExpr × List CqlToken)
  | 0, toks => Except.error (CqlParseError.internalError (toksLen toks))
  | fuel + 1, toks => do
    let (left, rest) ← parseUnaryExpr fuel toks
    parseAndRest fuel left rest

/-- Folds further `AND unary_expr` clauses onto the left operand. -/
def parseAndRest : Nat → CqlExpr → List CqlToken →
    Except CqlParseError (CqlExpr × List CqlToken)
  | 0, _, toks => Except.error (CqlParseError.internalError (toksLen toks))
  | fuel + 1, left, toks =>
    match toks with
    | t :: rest =>
      if isKeyword "and".data t then do
        let (right, rest2) ← parseUnaryExpr fuel rest
        parseAndRest fuel (CqlExpr.and left right) rest2
      else
        Except.ok (left, toks)
    | [] => Except.ok (left, [])

/-- Modelled `unary_expr` production: `NOT unary_expr | primary`, mirroring
`build_unary_expr`. -/
def parseUnaryExpr : Nat → List CqlToken →
    Except CqlParseError (CqlExpr × List CqlToken)
  | 0, toks => Except.error (CqlParseError.internalError (toksLen toks))
  | fuel + 1, toks =>
    match toks with
    | t :: rest =>
      if isKeyword "not".data t then do
        let (inner, rest2) ← parseUnaryExpr fuel rest
        Except.ok (CqlExpr.not inner, rest2)
      else
        parsePrimaryExpr fuel toks
    | [] => Except.error (CqlParseError.syntaxError [])

/-- Modelled `primary` production: a parenthesized expression, an `IN`
expression or a comparison, mirroring `build_primary`, `build_comparison`
and `build_in_expr`. -/
def parsePrimaryExpr : Nat → List CqlToken →
    Except CqlParseError (CqlExpr × List CqlToken)
  | 0, toks => Except.error (CqlParseError.internalError (toksLen toks))
  | fuel + 1, toks =>
    match toks with
    | CqlToken.lparen :: rest => do
      let (inner, rest2) ← parseOrExpr fuel rest
      match rest2 with
      | CqlToken.rparen :: rest3 => Except.ok (inner, rest3)
      | other => Except.error (CqlParseError.syntaxError (toksLen other))
    | CqlToken.word f :: rest =>
      match fieldFromStr f with
      | none => Except.error (CqlParseError.invalidField f)
      | some field =>
        match rest with
        | t :: rest2 =>
          if isKeyword "in".data t then
            match rest2 with
            | CqlToken.lparen :: rest3 => do
              let (values, rest4) ← parseValueList fuel field [] rest3
              Except.ok (CqlExpr.inExpr field values, rest4)
            | other => Except.error (CqlParseError.syntaxError (toksLen other))
          else
            match t with
            | CqlToken.opTok o =>
              match comparisonOpFromStr o with
              | none => Except.error (CqlParseError.syntaxError o)
              | some op =>
                match rest2 with
                | v :: rest3 => do
                  let value ← parseValueToken field v
                  Except.ok (CqlExpr.comparison field op value, rest3)
                | [] => Except.error (CqlParseError.syntaxError [])
            | _ => Except.error (CqlParseError.syntaxError f)
        | [] => Except.error (CqlParseError.syntaxError f)
    | _ => Except.error (CqlParseError.syntaxError [])

/-- Modelled `value_list` production: `value (, value)* )`, accumulating
converted values in order. -/
def parseValueList : Nat → CqlField → List CqlValue → List CqlToken →
    Except CqlParseError (List CqlValue × List CqlToken)
  | 0, _, _, toks => Except.error (CqlParseError.internalError (toksLen toks))
  | fuel + 1, field, acc, toks =>
    match toks with
    | v :: rest => do
      let value ← parseValueToken field v
      match rest with
      | CqlToken.comma :: rest2 => parseValueList fuel field (acc ++ [value]) rest2
      | CqlToken.rparen :: rest2 => Except.ok (acc ++ [value], rest2)
      | other => Except.error (CqlParseError.syntaxError (toksLen other))
    | [] => Except.error (CqlParseError.syntaxError [])

end

/-- Debug rendering of an operator, as Rust's `{:?}` would produce it
(used in `InvalidOperator` payloads). -/
def opDebugStr (op : ComparisonOp) : List Char :=
  match op with
  | ComparisonOp.eq => "Eq".data
  | ComparisonOp.notEq => "NotEq".data
  | ComparisonOp.like => "Like".data
  | ComparisonOp.gt => "Gt".data
  | ComparisonOp.lt => "Lt".data
  | ComparisonOp.gte => "Gte".data
  | ComparisonOp.lte => "Lte".data

/-- Lowercased debug rendering of a field, as
`format!("{:?}", field).to_lowercase()` produces. -/
def fieldLowerStr (field : CqlField) : List Char :=
  match field with
  | CqlField.tag => "tag".data
  | CqlField.name => "name".data
  | CqlField.size => "size".data
  | CqlField.modified => "modified".data
  | CqlField.typ => "type".data

/-- `validate_field_op` (parser.rs): the field/operator compatibility
table. -/
def validateFieldOp (field : CqlField) (op : ComparisonOp) :
    Except CqlParseError Unit :=
  let valid : Bool :=
    match field with
    | CqlField.tag =>
      op = ComparisonOp.eq || op = ComparisonOp.notEq || op = ComparisonOp.like
    | CqlField.name =>
      op = ComparisonOp.eq || op = ComparisonOp.notEq || op = ComparisonOp.like
    | CqlField.size =>
      op = ComparisonOp.eq || op = ComparisonOp.notEq || op = ComparisonOp.gt
        || op = ComparisonOp.lt || op = ComparisonOp.gte || op = ComparisonOp.lte
    | CqlField.modified =>
      op = ComparisonOp.eq || op = ComparisonOp.notEq || op = ComparisonOp.gt
        || op = ComparisonOp.lt || op = ComparisonOp.gte || op = ComparisonOp.lte
    | CqlField.typ =>
      op = ComparisonOp.eq || op = ComparisonOp.notEq
  if valid then Except.ok ()
  else Except.error (CqlParseError.invalidOperator (fieldLowerStr field) (opDebugStr op))

/-- `validate_semantics` (parser.rs): per-comparison operator check, `IN`
allowed only on `tag`, `name`, `type`. -/
def validateSemantics : CqlExpr → Except CqlParseError Unit
  | CqlExpr.comparison field op _ => validateFieldOp field op
  | CqlExpr.inExpr field _ =>
    match field with
    | CqlField.tag => Except.ok ()
    | CqlField.name => Except.ok ()
    | CqlField.typ => Except.ok ()
    | _ =>
      Except.error (CqlParseError.invalidOperator (fieldLowerStr field) "IN".data)
  | CqlExpr.and left right => do
    validateSemantics left
    validateSemantics right
  | CqlExpr.or left right => do
    validateSemantics left
    validateSemantics right
  | CqlExpr.not inner => validateSemantics inner

/-- Whitespace trim from both ends (`str::trim` for the ASCII inputs in
scope). -/
def trimChars (s : List Char) : List Char :=
  ((s.dropWhile Char.isWhitespace).reverse.dropWhile Char.isWhitespace).reverse

/-- `parse_cql` (parser.rs): trim, reject the empty query, tokenize and
parse (grammar modelled from the spec), require the input to be consumed,
then validate semantics. -/
def parseCql (input : List Char) : Except CqlParseError CqlExpr := do
  let input := trimChars input
  if input.isEmpty then
    Except.error CqlParseError.emptyQuery
  else do
    let toks ← tokenize input.length input
    let (expr, rest) ← parseOrExpr ((toks.length + 1) * 4) toks
    if rest.isEmpty then do
      validateSemantics expr
      Except.ok expr
    else
      Except.error (CqlParseError.syntaxError (toksLen rest))

/-! ## CQL SQL executor (src-tauri/src/infrastructure/persistence/cql_executor.rs)

`rusqlite::types::Value` is modelled by `SqlParam`; the generated SQL text
is carried as `List Char`.  Source branches marked `unreachable!` (operator
and value shapes excluded by semantic validation, or a string extraction on
a non-string value) are modelled by `Option`: `none` is a panic. -/

/-- Bound SQL parameter (`rusqlite::types::Value`, restricted to the two
variants the executor produces). -/
inductive SqlParam where
  | text (s : List Char)
  | integer (n : Int)
deriving DecidableEq, Repr

/-- A SQL fragment with its corresponding bound parameters
(struct `SqlFragment`). -/
structure SqlFragment where
  sql : List Char
  params : List SqlParam
deriving DecidableEq, Repr

/-- `glob_to_like`: `*`→`%`, `?`→`_`; literal `%`, `_`, `\` escaped with
`\`. -/
def globToLike : List Char → List Char
  | [] => []
  | '*' :: rest => '%' :: globToLike rest
  | '?' :: rest => '_' :: globToLike rest
  | '%' :: rest => '\\' :: '%' :: globToLike rest
  | '_' :: rest => '\\' :: '_' :: globToLike rest
  | '\\' :: rest => '\\' :: '\\' :: globToLike rest
  | c :: rest => c :: globToLike rest

/-- `type_to_extensions`: the fixed extension list per type name. -/
def typeToExtensions (typeName : List Char) : List (List Char) :=
  if typeName = "image".data then
    [".jpg".data, ".jpeg".data, ".png".data, ".gif".data, ".bmp".data,
     ".webp".data, ".svg".data, ".ico".data, ".tiff".data, ".tif".data]
  else if typeName = "video".data then
    [".mp4".data, ".avi".data, ".mkv".data, ".mov".data, ".wmv".data,
     ".flv".data, ".webm".data, ".m4v".data]
  else if typeName = "document".data then
    [".pdf".data, ".doc".data, ".docx".data, ".xls".data, ".xlsx".data,
     ".ppt".data, ".pptx".data, ".txt".data, ".csv".data, ".rtf".data]
  else if typeName = "audio".data then
    [".mp3".data, ".wav".data, ".flac".data, ".aac".data, ".ogg".data,
     ".wma".data, ".m4a".data]
  else if typeName = "archive".data then
    [".zip".data, ".rar".data, ".7z".data, ".tar".data, ".gz".data,
     ".bz2".data, ".xz".data]
  else []

/-- `FILENAME_EXPR`: the SQL filename projection of `i.path`. -/
def filenameExpr : List Char :=
  ("LOWER(SUBSTR(i.path, LENGTH(RTRIM(i.path, "
    ++ "REPLACE(REPLACE(i.path, '\\', ''), '/', ''))) + 1))").data

/-- `comparison_op_to_sql`; `Like` is handled separately in the source and
panics here (`none`). -/
def comparisonOpToSql (op : ComparisonOp) : Option (List Char) :=
  match op with
  | ComparisonOp.eq => some "=".data
  | ComparisonOp.notEq => some "!=".data
  | ComparisonOp.gt => some ">".data
  | ComparisonOp.lt => some "<".data
  | ComparisonOp.gte => some ">=".data
  | ComparisonOp.lte => some "<=".data
  | ComparisonOp.like => none

/-- `extract_string`; non-string values panic (`none`). -/
def extractString (value : CqlValue) : Option (List Char) :=
  match value with
  | CqlValue.str s => some s
  | _ => none

/-- `extract_size`; `Number(n)` is cast with `as i64` (truncation). -/
def extractSize (value : CqlValue) : Option Int :=
  match value with
  | CqlValue.sizeBytes b => some b
  | CqlValue.num a k => some (Int.tdiv a (10 ^ k))
  | _ => none

/-- `extract_timestamp`; `Number(n)` is cast with `as i64` (truncation). -/
def extractTimestamp (value : CqlValue) : Option Int :=
  match value with
  | CqlValue.timestamp t => some t
  | CqlValue.num a k => some (Int.tdiv a (10 ^ k))
  | _ => none

/-- The `EXISTS (SELECT 1 FROM item_tags it_k JOIN tags t_k ...)` subquery
text shared by the tag builders. -/
def tagSubquery (pfx : List Char) (idxs : List Char) (condition : List Char) :
    List Char :=
  pfx ++ " (SELECT 1 FROM item_tags it_".data ++ idxs
    ++ " JOIN tags t_".data ++ idxs ++ " ON it_".data ++ idxs
    ++ ".tag_id = t_".data ++ idxs ++ ".id WHERE it_".data ++ idxs
    ++ ".item_id = i.id AND ".data ++ condition ++ ")".data

/-- `build_tag_comparison_sql`: one `EXISTS`/`NOT EXISTS` subquery with a
fresh alias index and one bound parameter. -/
def buildTagComparisonSql (op : ComparisonOp) (value : CqlValue)
    (counter : Nat) (params : List SqlParam) :
    Option (List Char × Nat × List SqlParam) :=
  let idx := counter
  let idxs := Nat.toDigits 10 idx
  match op with
  | ComparisonOp.eq => do
    let s ← extractString value
    some (tagSubquery "EXISTS".data idxs
        ("t_".data ++ idxs ++ ".value = ?".data),
      idx + 1, params ++ [SqlParam.text s])
  | ComparisonOp.notEq => do
    let s ← extractString value
    some (tagSubquery "NOT EXISTS".data idxs
        ("t_".data ++ idxs ++ ".value = ?".data),
      idx + 1, params ++ [SqlParam.text s])
  | ComparisonOp.like => do
    let s ← extractString value
    some (tagSubquery "EXISTS".data idxs
        ("t_".data ++ idxs ++ ".value LIKE ? ESCAPE '\\'".data),
      idx + 1, params ++ [SqlParam.text (globToLike s)])
  | _ => none

/-- String extraction over a value list, in order (the parameter-push loops
of the source). -/
def extractStrings : List CqlValue → Option (List (List Char))
  | [] => some []
  | v :: vs => do
    let s ← extractString v
    let rest ← extractStrings vs
    some (s :: rest)

/-- `build_tag_in_sql`: one `EXISTS` subquery with `t_k.value IN (?, …)` and
one bound parameter per value. -/
def buildTagInSql (values : List CqlValue) (counter : Nat)
    (params : List SqlParam) : Option (List Char × Nat × List SqlParam) := do
  let idx := counter
  let idxs := Nat.toDigits 10 idx
  let strs ← extractStrings values
  let placeholders := List.intercalate ", ".data (values.map fun _ => "?".data)
  some (tagSubquery "EXISTS".data idxs
      ("t_".data ++ idxs ++ ".value IN (".data ++ placeholders ++ ")".data),
    idx + 1, params ++ strs.map SqlParam.text)

/-- `build_name_sql`: comparison against the filename projection; both sides
lowercased; `~` via glob→LIKE. -/
def buildNameSql (op : ComparisonOp) (value : CqlValue)
    (params : List SqlParam) : Option (List Char × List SqlParam) := do
  let s ← extractString value
  match op with
  | ComparisonOp.eq =>
    some (filenameExpr ++ " = ?".data,
      params ++ [SqlParam.text (s.map Char.toLower)])
  | ComparisonOp.notEq =>
    some (filenameExpr ++ " != ?".data,
      params ++ [SqlParam.text (s.map Char.toLower)])
  | ComparisonOp.like =>
    some (filenameExpr ++ " LIKE ? ESCAPE '\\'".data,
      params ++ [SqlParam.text ((globToLike s).map Char.toLower)])
  | _ => none

/-- `build_size_sql`: `COALESCE(i.size, 0) OP ?`. -/
def buildSizeSql (op : ComparisonOp) (value : CqlValue)
    (params : List SqlParam) : Option (List Char × List SqlParam) := do
  let bytes ← extractSize value
  let sqlOp ← comparisonOpToSql op
  some ("COALESCE(i.size, 0) ".data ++ sqlOp ++ " ?".data,
    params ++ [SqlParam.integer bytes])

/-- `build_modified_sql`: `COALESCE(i.modified_time, 0) OP ?`. -/
def buildModifiedSql (op : ComparisonOp) (value : CqlValue)
    (params : List SqlParam) : Option (List Char × List SqlParam) := do
  let ts ← extractTimestamp value
  let sqlOp ← comparisonOpToSql op
  some ("COALESCE(i.modified_time, 0) ".data ++ sqlOp ++ " ?".data,
    params ++ [SqlParam.integer ts])

/-- `build_type_sql`: `directory` maps to `i.is_directory`; known types
expand to one `LOWER(i.path) LIKE ?` disjunct and one `%ext` parameter per
extension; unknown types collapse to `0` for `=` and `1` for `!=`. -/
def buildTypeSql (op : ComparisonOp) (value : CqlValue)
    (params : List SqlParam) : Option (List Char × List SqlParam) := do
  let s ← extractString value
  let typeName := s.map Char.toLower
  if typeName = "directory".data then
    match op with
    | ComparisonOp.eq => some ("i.is_directory = 1".data, params)
    | ComparisonOp.notEq => some ("i.is_directory = 0".data, params)
    | _ => none
  else
    let extensions := typeToExtensions typeName
    if extensions.isEmpty then
      match op with
      | ComparisonOp.eq => some ("0".data, params)
      | ComparisonOp.notEq => some ("1".data, params)
      | _ => none
    else
      let newParams :=
        extensions.map fun ext => SqlParam.text ('%' :: ext)
      let joined :=
        List.intercalate " OR ".data
          (extensions.map fun _ => "LOWER(i.path) LIKE ?".data)
      match op with
      | ComparisonOp.eq =>
        some ("(i.is_directory = 0 AND (".data ++ joined ++ "))".data,
          params ++ newParams)
      | ComparisonOp.notEq =>
        some ("(i.is_directory = 1 OR NOT (".data ++ joined ++ "))".data,
          params ++ newParams)
      | _ => none

/-- The `Field::Type` arm of `build_in_sql`: conditions and parameters
accumulated per value, in order. -/
def typeInConds : List CqlValue → Option (List (List Char) × List SqlParam)
  | [] => some ([], [])
  | v :: vs => do
    let s ← extractString v
    let typeName := s.map Char.toLower
    let (conds, ps) ← typeInConds vs
    if typeName = "directory".data then
      some ("i.is_directory = 1".data :: conds, ps)
    else
      let extensions := typeToExtensions typeName
      some ((extensions.map fun _ => "LOWER(i.path) LIKE ?".data) ++ conds,
        (extensions.map fun ext => SqlParam.text ('%' :: ext)) ++ ps)

/-- `build_in_sql`: `IN` over `tag` (subquery), `name` (filename projection)
or `type` (union of per-type conditions); other fields panic. -/
def buildInSql (field : CqlField) (values : List CqlValue) (counter : Nat)
    (params : List SqlParam) : Option (List Char × Nat × List SqlParam) :=
  match field with
  | CqlField.tag => buildTagInSql values counter params
  | CqlField.name => do
    let strs ← extractStrings values
    let placeholders := List.intercalate ", ".data (values.map fun _ => "?".data)
    some (filenameExpr ++ " IN (".data ++ placeholders ++ ")".data,
      counter, params ++ strs.map fun s => SqlParam.text (s.map Char.toLower))
  | CqlField.typ => do
    let (conds, ps) ← typeInConds values
    if conds.isEmpty then
      some ("0".data, counter, params)
    else
      some ("(".data ++ List.intercalate " OR ".data conds ++ ")".data,
        counter, params ++ ps)
  | _ => none

/-- `build_sql`: recursive compilation threading the tag-alias counter and
the parameter list. -/
def buildSql : CqlExpr → Nat → List SqlParam →
    Option (List Char × Nat × List SqlParam)
  | CqlExpr.comparison field op value, counter, params =>
    match field with
    | CqlField.tag => buildTagComparisonSql op value counter params
    | CqlField.name => do
      let (s, p) ← buildNameSql op value params
      some (s, counter, p)
    | CqlField.size => do
      let (s, p) ← buildSizeSql op value params
      some (s, counter, p)
    | CqlField.modified => do
      let (s, p) ← buildModifiedSql op value params
      some (s, counter, p)
    | CqlField.typ => do
      let (s, p) ← buildTypeSql op value params
      some (s, counter, p)
  | CqlExpr.inExpr field values, counter, params =>
    buildInSql field values counter params
  | CqlExpr.and left right, counter, params => do
    let (l, c1, p1) ← buildSql left counter params
    let (r, c2, p2) ← buildSql right c1 p1
    some ("(".data ++ l ++ " AND ".data ++ r ++ ")".data, c2, p2)
  | CqlExpr.or left right, counter, params => do
    let (l, c1, p1) ← buildSql left counter params
    let (r, c2, p2) ← buildSql right c1 p1
    some ("(".data ++ l ++ " OR ".data ++ r ++ ")".data, c2, p2)
  | CqlExpr.not inner, counter, params => do
    let (s, c1, p1) ← buildSql inner counter params
    some ("NOT (".data ++ s ++ ")".data, c1, p1)

/-- `expr_to_sql`: compile from counter 0 and an empty parameter list. -/
def exprToSql (expr : CqlExpr) : Option SqlFragment :=
  (buildSql expr 0 []).map fun r => SqlFragment.mk r.1 r.2.2

/-- Number of literal leaves of an expression: one per comparison value and
one per `IN`-list value (the count the spec's claim uses). -/
def litLeafCount : CqlExpr → Nat
  | CqlExpr.comparison _ _ _ => 1
  | CqlExpr.inExpr _ values => values.length
  | CqlExpr.and left right => litLeafCount left + litLeafCount right
  | CqlExpr.or left right => litLeafCount left + litLeafCount right
  | CqlExpr.not inner => litLeafCount inner

/-- Parameters contributed by one `type` value: none for `directory` or an
unknown type, one per extension for a known type class. -/
def typeValueWeight (v : CqlValue) : Nat :=
  match extractString v with
  | some s =>
    let typeName := s.map Char.toLower
    if typeName = "directory".data then 0 else (typeToExtensions typeName).length
  | none => 0

/-- Number of bound parameters the executor actually emits: one per literal
leaf, except that a `type` value contributes `typeValueWeight` parameters. -/
def paramWeight : CqlExpr → Nat
  | CqlExpr.comparison field _ value =>
    if field = CqlField.typ then typeValueWeight value else 1
  | CqlExpr.inExpr field values =>
    if field = CqlField.typ then (values.map typeValueWeight).sum
    else values.length
  | CqlExpr.and left right => paramWeight left + paramWeight right
  | CqlExpr.or left right => paramWeight left + paramWeight right
  | CqlExpr.not inner => paramWeight inner

/-! ## Domain errors (src-tauri/src/domain/errors.rs)

Payload messages are elided (`Unit`-like constructors carrying no text);
the claims depend only on the error kind.  `usnJournalError` is modelled
from its uses in the USN modules. -/

/-- Domain error kinds (enum `DomainError`). -/
inductive DomainError where
  | invalidFilePath
  | invalidTagValue
  | invalidColor
  | itemNotFound
  | tagNotFound
  | tagGroupNotFound
  | tagTemplateNotFound
  | duplicateEntry
  | validationError
  | databaseError
  | usnJournalError
deriving DecidableEq, Repr

/-! ## Search criteria and search service
(src-tauri/src/domain/entities/search_history.rs,
src-tauri/src/application/services/search_service.rs) -/

/-- Search mode for tag-based search (enum `SearchMode`). -/
inductive SearchMode where
  | and
  | or
deriving DecidableEq, Repr

/-- `SearchCriteriaDto` (application/dto.rs). -/
structure SearchCriteriaDto where
  tagIds : List Int
  mode : SearchMode
  filenameQuery : Option (List Char)
deriving DecidableEq, Repr

/-- `SearchCriteria` (search_history.rs): text query, sorted tag-id list,
mode. -/
structure SearchCriteria where
  textQuery : Option (List Char)
  tagIds : List Int
  mode : SearchMode
deriving DecidableEq, Repr

/-- `SearchCriteria::new`: sorts `tag_ids` ascending and normalizes a
blank text query to `None`.  The source's `sort_unstable` and this
insertion sort agree: sorted permutations of an integer list are equal. -/
def searchCriteriaNew (textQuery : Option (List Char)) (tagIds : List Int)
    (mode : SearchMode) : SearchCriteria :=
  { textQuery := textQuery.filter fun s => !(trimChars s).isEmpty
    tagIds := List.insertionSort (· ≤ ·) tagIds
    mode := mode }

/-- `SearchService::search` (search_service.rs): the combined search.  The
repository is an oracle `searchCombined`; the second component of the
result lists the criteria for which a history save was attempted (the save
result itself is swallowed by the source).  An empty criteria set
short-circuits to an empty result with no save. -/
def searchServiceSearch
    (searchCombined : List Int → SearchMode → Option (List Char) →
      Except DomainError (List Int))
    (criteria : SearchCriteriaDto) :
    Except DomainError (List Int) × List SearchCriteria :=
  let hasTags := !criteria.tagIds.isEmpty
  let hasFilename :=
    (criteria.filenameQuery.map fun q => !(trimChars q).isEmpty).getD false
  if !hasTags && !hasFilename then
    (Except.ok [], [])
  else
    match searchCombined criteria.tagIds criteria.mode criteria.filenameQuery with
    | Except.error e => (Except.error e, [])
    | Except.ok results =>
      let historyCriteria :=
        searchCriteriaNew criteria.filenameQuery criteria.tagIds criteria.mode
      (Except.ok results, [historyCriteria])

/-- `SearchService::search_cql` (search_service.rs): trims the query,
short-circuits an empty query, otherwise delegates to the repository.  The
second component lists attempted history saves. -/
def searchServiceSearchCql
    (searchCqlRepo : List Char → Except DomainError (List Int))
    (query : List Char) :
    Except DomainError (List Int) × List SearchCriteria :=
  let query := trimChars query
  if query.isEmpty then
    (Except.ok [], [])
  else
    (searchCqlRepo query, [])

/-! ## Search-history repository
(src-tauri/src/infrastructure/persistence/sqlite_search_history_repository.rs)

`search_histories` rows and the `search_history_tags` child table are
lists; the candidate scan follows row order (SQLite scans the header table
in rowid order absent an ORDER BY). -/

/-- One `search_histories` row. -/
structure HistoryRow where
  id : Int
  textQuery : Option (List Char)
  mode : SearchMode
  lastUsedAt : Int
deriving DecidableEq, Repr

/-- The history store: header rows, child tag rows keyed by history id, and
the next rowid. -/
structure HistoryState where
  rows : List HistoryRow
  tagRows : List (Int × Int)
  nextId : Int
deriving DecidableEq, Repr

/-- Sorted tag ids stored under one history id in a child-table row list. -/
def sortedTagsIn (tagRows : List (Int × Int)) (id : Int) : List Int :=
  List.insertionSort (· ≤ ·) ((tagRows.filter fun p => p.1 = id).map Prod.snd)

/-- Stored tag ids of one history row, as the source reads them:
`SELECT tag_id … ORDER BY tag_id ASC`. -/
def storedTagsOf (st : HistoryState) (id : Int) : List Int :=
  sortedTagsIn st.tagRows id

/-- `SqliteSearchHistoryRepository::save`: find candidates by null-safe
`(text_query, search_mode)` equality, match the first whose sorted tag list
equals the criteria's, update its `last_used_at` to `now`; otherwise insert
a new header row and its tag rows. -/
def historySave (criteria : SearchCriteria) (now : Int) (st : HistoryState) :
    HistoryState :=
  let candidates :=
    (st.rows.filter fun r =>
      r.textQuery = criteria.textQuery && r.mode = criteria.mode).map (·.id)
  match candidates.find? fun id => storedTagsOf st id = criteria.tagIds with
  | some id =>
    { st with rows := st.rows.map fun r =>
        if r.id = id then { r with lastUsedAt := now } else r }
  | none =>
    { rows := st.rows ++
        [{ id := st.nextId, textQuery := criteria.textQuery,
           mode := criteria.mode, lastUsedAt := now }]
      tagRows := st.tagRows ++ criteria.tagIds.map fun t => (st.nextId, t)
      nextId := st.nextId + 1 }

/-- Rows matching a criteria value exactly (same null-safe text query, mode
and sorted tag set); the claim counts these. -/
def matchingRows (st : HistoryState) (criteria : SearchCriteria) :
    List HistoryRow :=
  st.rows.filter fun r =>
    r.textQuery = criteria.textQuery && r.mode = criteria.mode
      && storedTagsOf st r.id = criteria.tagIds

/-- Fresh-id invariant of the history store: every header row id and every
child row key is below `nextId`. -/
def historyFresh (st : HistoryState) : Prop :=
  (∀ r ∈ st.rows, r.id < st.nextId) ∧ ∀ p ∈ st.tagRows, p.1 < st.nextId

/-! ## Tag repository and tag merge
(src-tauri/src/infrastructure/persistence/sqlite_tag_repository.rs,
src-tauri/src/application/services/tag_service.rs)

The persistent state is the tag-id set and the `item_tags` rows.  Every SQL
statement may fail at runtime; a fault schedule (one `Bool` per executed
statement, `true` = that statement returns an error) makes the failure
paths explicit.  A `BEGIN IMMEDIATE … COMMIT/ROLLBACK` block restores the
pre-transaction state when any inner statement fails. -/

/-- Persistent state touched by tag operations. -/
structure TagDb where
  tags : List Int
  itemTags : List (Int × Int)
deriving DecidableEq, Repr

/-- Pops the next fault flag of the schedule (an exhausted schedule means
no further failures). -/
def nextFault (faults : List Bool) : Bool × List Bool :=
  match faults with
  | [] => (false, [])
  | b :: rest => (b, rest)

/-- `SqliteTagRepository::reassign_items`: inside one immediate transaction,
first delete `item_tags` rows holding the source tag whose item already
holds the target tag, then retag the remaining source rows; roll back to
the initial state when either statement fails. -/
def reassignItems (sourceTagId targetTagId : Int) (db : TagDb)
    (faults : List Bool) : Except DomainError Unit × TagDb × List Bool :=
  let (f1, faults1) := nextFault faults
  if f1 then
    (Except.error DomainError.validationError, db, faults1)
  else
    let db1 := { db with itemTags := db.itemTags.filter fun p =>
      !(p.2 = sourceTagId
        && db.itemTags.any fun q => q.1 = p.1 && q.2 = targetTagId) }
    let (f2, faults2) := nextFault faults1
    if f2 then
      (Except.error DomainError.validationError, db, faults2)
    else
      let db2 := { db1 with itemTags := db1.itemTags.map fun p =>
        if p.2 = sourceTagId then (p.1, targetTagId) else p }
      (Except.ok (), db2, faults2)

/-- `SqliteTagRepository::delete`: a single `DELETE FROM tags WHERE id = ?`;
with `foreign_keys=ON` the delete cascades over `item_tags`; zero affected
rows is `TagNotFound`. -/
def tagRepoDelete (id : Int) (db : TagDb) (faults : List Bool) :
    Except DomainError Unit × TagDb × List Bool :=
  let (f, faults1) := nextFault faults
  if f then
    (Except.error DomainError.validationError, db, faults1)
  else if id ∈ db.tags then
    (Except.ok (),
      { tags := db.tags.filter fun t => t ≠ id
        itemTags := db.itemTags.filter fun p => p.2 ≠ id },
      faults1)
  else
    (Except.error DomainError.tagNotFound, db, faults1)

/-- `TagService::merge`: verify both tags exist, reassign the item
associations, then delete the source tag.  The two repository calls run in
two separate transactions. -/
def tagServiceMerge (sourceId targetId : Int) (db : TagDb)
    (faults : List Bool) : Except DomainError Unit × TagDb × List Bool :=
  if sourceId ∉ db.tags then
    (Except.error DomainError.tagNotFound, db, faults)
  else if targetId ∉ db.tags then
    (Except.error DomainError.tagNotFound, db, faults)
  else
    match reassignItems sourceId targetId db faults with
    | (Except.error e, db1, faults1) => (Except.error e, db1, faults1)
    | (Except.ok (), db1, faults1) => tagRepoDelete sourceId db1 faults1

/-! ## Tag-group reorder
(src-tauri/src/infrastructure/persistence/sqlite_tag_group_repository.rs) -/

/-- One `tag_groups` row (the columns `reorder` touches). -/
structure GroupRow where
  id : Int
  displayOrder : Int
deriving DecidableEq, Repr

/-- One `UPDATE tag_groups SET display_order = ?1 WHERE id = ?2`. -/
def applyOrder (rows : List GroupRow) (p : Int × Int) : List GroupRow :=
  rows.map fun r => if r.id = p.1 then { r with displayOrder := p.2 } else r

/-- `SqliteTagGroupRepository::reorder` on the success path: the supplied
`(id, order)` pairs applied in order inside one transaction. -/
def reorderGroups (orders : List (Int × Int)) (rows : List GroupRow) :
    List GroupRow :=
  orders.foldl applyOrder rows

/-- Pairwise distinctness of the `display_order` column. -/
def ordersDistinct (rows : List GroupRow) : Prop :=
  rows.Pairwise fun a b => a.displayOrder ≠ b.displayOrder

/-! ## Item-tag association
(src-tauri/src/infrastructure/persistence/sqlite_item_repository.rs) -/

/-- `SqliteItemRepository::add_tag`:
`INSERT OR IGNORE INTO item_tags (item_id, tag_id)` against the composite
primary key `(item_id, tag_id)`. -/
def addTag (itemId tagId : Int) (itemTags : List (Int × Int)) :
    List (Int × Int) :=
  if (itemId, tagId) ∈ itemTags then itemTags
  else itemTags ++ [(itemId, tagId)]

/-! ## USN refresh service
(src-tauri/src/application/services/usn_refresh_service.rs)

The Win32 environment (volume handles, journal metadata, record reading,
FRN path resolution) is an oracle per drive; the persistent state is the
`usn_state` table and the tracked items.  Timestamps (`last_synced_at`,
`unixepoch()`) are not modelled. -/

/-- USN reason flag constants (u32 masks). -/
def usnReasonFileCreate : Nat := 0x100

/-- `USN_REASON_FILE_DELETE`. -/
def usnReasonFileDelete : Nat := 0x200

/-- `USN_REASON_RENAME_NEW_NAME`. -/
def usnReasonRenameNewName : Nat := 0x2000

/-- One parsed journal record (`RawUsnRecord`, the fields the service
reads). -/
structure RawUsnRecord where
  fileReferenceNumber : Nat
  reason : Nat
deriving DecidableEq, Repr

/-- Journal metadata from `VolumeHandle::query_journal`. -/
structure JournalData where
  journalId : Nat
  firstUsn : Int
  nextUsn : Int
deriving DecidableEq, Repr

/-- Outcome of the journal query: metadata, the journal-not-active error
(special-cased by the service), or another error. -/
inductive JournalQuery where
  | active (j : JournalData)
  | inactive
  | failed
deriving DecidableEq, Repr

/-- One tracked item (`Item`: the columns the refresh touches). -/
structure TrackedItem where
  id : Int
  path : List Char
  frn : Nat
  deleted : Bool
deriving DecidableEq, Repr

/-- Per-drive environment oracle: filesystem kind, journal query outcome,
the record batch `read_journal_records` would return from a start USN, and
`resolve_path_by_frn` (`Except` = Win32 error, `none` = file gone). -/
structure DriveEnv where
  isNtfs : Bool
  journal : JournalQuery
  readRecs : Int → Int × List RawUsnRecord
  resolve : Nat → Except Unit (Option (List Char))

/-- Persistent state the refresh mutates. -/
structure UsnWorld where
  usnState : List (Char × Int × Nat)
  items : List TrackedItem
deriving Repr

/-- One reported item update (`RefreshedItemDto`). -/
structure RefreshedItem where
  itemId : Int
  oldPath : List Char
  newPath : Option (List Char)
  action : List Char
deriving DecidableEq, Repr

/-- The refresh result DTO (`RefreshResultDto`); error messages are elided
to a count. -/
structure RefreshResult where
  drivesScanned : List (List Char)
  itemsUpdated : List RefreshedItem
  journalStale : List (List Char)
  journalInactive : List (List Char)
  firstTimeDrives : List (List Char)
  errorsCount : Nat
deriving Repr

/-- The empty `RefreshResultDto::default()`. -/
def emptyRefreshResult : RefreshResult :=
  { drivesScanned := [], itemsUpdated := [], journalStale := []
    journalInactive := [], firstTimeDrives := [], errorsCount := 0 }

/-- Per-drive context retained for phase 2 (`DriveContext`; the volume
handle is represented by the drive's environment). -/
structure DriveContext where
  drive : Char
  records : List RawUsnRecord
  finalUsn : Int
  journalId : Nat

/-- An item whose file was not found on its original volume
(`PendingDelete`). -/
structure PendingDelete where
  itemId : Int
  oldPath : List Char
deriving DecidableEq, Repr

/-- `load_usn_state`: the `(last_usn, journal_id)` row for an uppercased
drive letter. -/
def loadUsnState (world : UsnWorld) (drive : Char) : Option (Int × Nat) :=
  (world.usnState.find? fun e => e.1 = drive.toUpper).map (·.2)

/-- `save_usn_state`: `INSERT OR REPLACE` of the row for the uppercased
drive letter. -/
def saveUsnState (world : UsnWorld) (drive : Char) (lastUsn : Int)
    (journalId : Nat) : UsnWorld :=
  { world with usnState :=
      (world.usnState.filter fun e => e.1 ≠ drive.toUpper)
        ++ [(drive.toUpper, lastUsn, journalId)] }

/-- The `"{}:"` drive label pushed into result lists. -/
def driveLabel (drive : Char) : List Char :=
  [drive, ':']

/-- `"{}:\\"` — the path prefix of a drive (uppercased), used to load the
drive's tracked items. -/
def drivePathStart (drive : Char) : List Char :=
  [drive.toUpper, ':', '\\']

/-- `ItemRepository::find_active_by_path_prefix`: non-deleted items whose
path starts with the drive's prefix. -/
def findActiveByDrive (world : UsnWorld) (drive : Char) : List TrackedItem :=
  world.items.filter fun item =>
    !item.deleted && (drivePathStart drive).isPrefixOf item.path

/-- Membership of a reason mask (`reason & mask != 0`). -/
def hasReason (r : RawUsnRecord) (mask : Nat) : Bool :=
  r.reason.land mask ≠ 0

/-- `update_item_path` on the success path: rewrite the path of the item in
place (FilePath validation is not modelled; resolved Win32 paths contain no
traversal components). -/
def updateItemPath (world : UsnWorld) (itemId : Int) (newPath : List Char) :
    UsnWorld :=
  { world with items := world.items.map fun item =>
      if item.id = itemId then { item with path := newPath } else item }

/-- `update_item_path_and_frn`: rewrite path and FRN (cross-volume move). -/
def updateItemPathAndFrn (world : UsnWorld) (itemId : Int)
    (newPath : List Char) (newFrn : Nat) : UsnWorld :=
  { world with items := world.items.map fun item =>
      if item.id = itemId then { item with path := newPath, frn := newFrn }
      else item }

/-- `mark_item_deleted`: soft delete. -/
def markItemDeleted (world : UsnWorld) (itemId : Int) : UsnWorld :=
  { world with items := world.items.map fun item =>
      if item.id = itemId then { item with deleted := true } else item }

/-- Accumulator threaded through `process_drive`. -/
structure PhaseOneState where
  world : UsnWorld
  result : RefreshResult
  contexts : List DriveContext
  pendings : List PendingDelete

/-- The per-FRN match body of `process_drive`: re-resolve the path, update
in place and report `renamed` when it moved on the same volume, or defer to
the pending list when the file is gone and the record carried a delete (or
`usn_refresh_on_missing` is off). -/
def processFrn (env : DriveEnv) (records : List RawUsnRecord)
    (refreshOnMissing : Bool) (item : TrackedItem) (st : PhaseOneState) :
    Except DomainError PhaseOneState :=
  let hasDelete := (records.filter fun r =>
    r.fileReferenceNumber = item.frn).any fun r =>
      hasReason r usnReasonFileDelete
  match env.resolve item.frn with
  | Except.error _ => Except.error DomainError.usnJournalError
  | Except.ok (some currentPath) =>
    if currentPath ≠ item.path then
      Except.ok { st with
        world := updateItemPath st.world item.id currentPath
        result := { st.result with itemsUpdated := st.result.itemsUpdated ++
          [{ itemId := item.id, oldPath := item.path,
             newPath := some currentPath, action := "renamed".data }] } }
    else
      Except.ok st
  | Except.ok none =>
    if hasDelete || !refreshOnMissing then
      Except.ok { st with pendings := st.pendings ++
        [{ itemId := item.id, oldPath := item.path }] }
    else
      Except.ok st

/-- Fold of `processFrn` over the matched items. -/
def processFrns (env : DriveEnv) (records : List RawUsnRecord)
    (refreshOnMissing : Bool) (items : List TrackedItem)
    (st : PhaseOneState) : Except DomainError PhaseOneState :=
  match items with
  | [] => Except.ok st
  | item :: rest => do
    let st1 ← processFrn env records refreshOnMissing item st
    processFrns env records refreshOnMissing rest st1

/-- `UsnRefreshService::process_drive`: skip non-NTFS volumes, record
inactive journals, branch on the saved checkpoint (first-time, stale,
caught-up), otherwise read records, match tracked FRNs against rename and
delete records, and keep the drive context for phase 2.

The source iterates `matched_frns` in `HashSet` intersection order; here
the tracked items are scanned in table order, keeping only those with a
non-zero FRN appearing in a rename or delete record.  No theorem below
depends on this iteration order. -/
def processDrive (env : DriveEnv) (drive : Char) (refreshOnMissing : Bool)
    (st : PhaseOneState) : Except DomainError PhaseOneState :=
  if !env.isNtfs then
    Except.ok st
  else
    let st := { st with result := { st.result with drivesScanned :=
      st.result.drivesScanned ++ [driveLabel drive] } }
    match env.journal with
    | JournalQuery.failed => Except.error DomainError.usnJournalError
    | JournalQuery.inactive =>
      Except.ok { st with result := { st.result with journalInactive :=
        st.result.journalInactive ++ [driveLabel drive] } }
    | JournalQuery.active journal =>
      match loadUsnState st.world drive with
      | none =>
        Except.ok { st with
          result := { st.result with firstTimeDrives :=
            st.result.firstTimeDrives ++ [driveLabel drive] }
          world := saveUsnState st.world drive journal.nextUsn journal.journalId
          contexts := st.contexts ++
            [{ drive := drive, records := [], finalUsn := journal.nextUsn,
               journalId := journal.journalId }] }
      | some (savedUsn, savedJournalId) =>
        if savedJournalId ≠ journal.journalId || savedUsn < journal.firstUsn then
          Except.ok { st with
            result := { st.result with journalStale :=
              st.result.journalStale ++ [driveLabel drive] }
            world := saveUsnState st.world drive journal.nextUsn journal.journalId
            contexts := st.contexts ++
              [{ drive := drive, records := [], finalUsn := journal.nextUsn,
                 journalId := journal.journalId }] }
        else if journal.nextUsn ≤ savedUsn then
          Except.ok { st with contexts := st.contexts ++
            [{ drive := drive, records := [], finalUsn := journal.nextUsn,
               journalId := journal.journalId }] }
        else
          let (finalUsn, records) := env.readRecs savedUsn
          if records.isEmpty then
            Except.ok { st with contexts := st.contexts ++
              [{ drive := drive, records := [], finalUsn := finalUsn,
                 journalId := journal.journalId }] }
          else
            let trackedItems := findActiveByDrive st.world drive
            if trackedItems.isEmpty then
              Except.ok { st with contexts := st.contexts ++
                [{ drive := drive, records := records, finalUsn := finalUsn,
                   journalId := journal.journalId }] }
            else
              let matched := trackedItems.filter fun item =>
                item.frn ≠ 0 && records.any fun r =>
                  r.fileReferenceNumber = item.frn
                    && (hasReason r usnReasonRenameNewName
                      || hasReason r usnReasonFileDelete)
              match processFrns env records refreshOnMissing matched st with
              | Except.error e => Except.error e
              | Except.ok st1 =>
                Except.ok { st1 with contexts := st1.contexts ++
                  [{ drive := drive, records := records, finalUsn := finalUsn,
                     journalId := journal.journalId }] }

/-- Filename component of a Windows path (`rsplit_once('\\')`). -/
def filenameComponent (path : List Char) : List Char :=
  match (path.reverse.splitOn '\\').head? with
  | some revName => revName.reverse
  | none => path

/-- `cross_volume_match`: resolve FRNs of create/rename records on the
other drives, index them by filename, and move each pending delete to the
first candidate on a different drive.  `HashSet` iteration order is
modelled as first-occurrence order; no theorem depends on it. -/
def crossVolumeMatch (env : Char → DriveEnv) (contexts : List DriveContext)
    (st : PhaseOneState) : Except DomainError PhaseOneState :=
  let pendingFilenames := (st.pendings.map fun p =>
    filenameComponent p.oldPath).dedup
  let nameIndex : List (List Char × List Char × Nat × Nat) :=
    (contexts.enum.map fun (idx, ctx) =>
      let createFrns := ((ctx.records.filter fun r =>
        hasReason r usnReasonFileCreate
          || hasReason r usnReasonRenameNewName).map
            (·.fileReferenceNumber)).dedup
      createFrns.filterMap fun frn =>
        match (env ctx.drive).resolve frn with
        | Except.ok (some path) =>
          let filename := filenameComponent path
          if pendingFilenames.contains filename then
            some (filename, path, frn, idx)
          else none
        | _ => none).flatten
  let step := fun (acc : Except DomainError (PhaseOneState × List PendingDelete))
      (pending : PendingDelete) =>
    match acc with
    | Except.error e => Except.error e
    | Except.ok (st, unresolved) =>
      let filename := filenameComponent pending.oldPath
      let sourceDrive := (pending.oldPath.head?.getD '\x00').toUpper
      match nameIndex.find? fun c =>
        c.1 = filename
          && (contexts.get? c.2.2.2 |>.map fun ctx =>
              ctx.drive.toUpper != sourceDrive).getD false with
      | some (_, newPath, newFrn, _) =>
        Except.ok ({ st with
          world := updateItemPathAndFrn st.world pending.itemId newPath newFrn
          result := { st.result with itemsUpdated := st.result.itemsUpdated ++
            [{ itemId := pending.itemId, oldPath := pending.oldPath,
               newPath := some newPath, action := "moved".data }] } },
          unresolved)
      | none => Except.ok (st, unresolved ++ [pending])
  match st.pendings.foldl step (Except.ok ({ st with pendings := [] }, [])) with
  | Except.error e => Except.error e
  | Except.ok (st1, unresolved) => Except.ok { st1 with pendings := unresolved }

/-- `UsnRefreshService::refresh`: phase 1 over the requested drives
(per-drive errors folded into the error count), phase 2 when cross-volume
matching is on and more than one drive contributed, phase 3 soft-deleting
the remaining pendings, then the checkpoint commit for every pushed
context. -/
def usnRefresh (env : Char → DriveEnv) (drives : List Char)
    (refreshOnMissing crossVolume : Bool) (world : UsnWorld) :
    Except DomainError (RefreshResult × UsnWorld) :=
  let phase1 := drives.foldl
    (fun (st : PhaseOneState) drive =>
      match processDrive (env drive) drive refreshOnMissing st with
      | Except.ok st1 => st1
      | Except.error _ =>
        { st with result := { st.result with errorsCount :=
            st.result.errorsCount + 1 } })
    { world := world, result := emptyRefreshResult, contexts := [],
      pendings := [] }
  let afterPhase2 : Except DomainError PhaseOneState :=
    if crossVolume && !phase1.pendings.isEmpty && 1 < phase1.contexts.length then
      crossVolumeMatch env phase1.contexts phase1
    else
      Except.ok phase1
  match afterPhase2 with
  | Except.error e => Except.error e
  | Except.ok st2 =>
    let st3 := st2.pendings.foldl
      (fun (st : PhaseOneState) pending =>
        { st with
          world := markItemDeleted st.world pending.itemId
          result := { st.result with itemsUpdated := st.result.itemsUpdated ++
            [{ itemId := pending.itemId, oldPath := pending.oldPath,
               newPath := none, action := "deleted".data }] } })
      st2
    let finalWorld := st3.contexts.foldl
      (fun (w : UsnWorld) ctx => saveUsnState w ctx.drive ctx.finalUsn ctx.journalId)
      st3.world
    Except.ok (st3.result, finalWorld)

/-! ## Specification-side auxiliaries and concrete fixtures -/

/-- The order the reorder loop leaves on a given group id: the second
component of the last supplied pair naming that id, if any. -/
def assignedOrder (orders : List (Int × Int)) (i : Int) : Option Int :=
  ((orders.filter fun p => p.1 = i).getLast?).map Prod.snd

/-- A CQL repository oracle that always succeeds with an empty result. -/
def cqlOracleOk : List Char → Except DomainError (List Int) :=
  fun _ => Except.ok []

/-- A combined-search repository oracle that always succeeds with an empty
result. -/
def combinedOracleOk :
    List Int → SearchMode → Option (List Char) → Except DomainError (List Int) :=
  fun _ _ _ => Except.ok []

/-- Concrete tag store for the merge scenario: tags 1 and 2, item 10
holding tag 1 only. -/
def mergeFixtureDb : TagDb :=
  { tags := [1, 2], itemTags := [(10, 1)] }

/-- Concrete tag-group rows with distinct display orders 0 and 1. -/
def reorderFixtureRows : List GroupRow :=
  [{ id := 1, displayOrder := 0 }, { id := 2, displayOrder := 1 }]

/-- Concrete drive environment: an NTFS volume with an active journal
(id 7, first USN 0, next USN 100), no readable records and no resolvable
FRNs. -/
def usnFixtureEnv : Char → DriveEnv :=
  fun _ =>
    { isNtfs := true
      journal := JournalQuery.active { journalId := 7, firstUsn := 0, nextUsn := 100 }
      readRecs := fun _ => (0, [])
      resolve := fun _ => Except.ok none }

/-- Concrete empty persistent state for the USN scenario. -/
def usnFixtureWorld : UsnWorld :=
  { usnState := [], items := [] }

/-- The expression the counterexample query parses to. -/
def typeDirectoryExpr : CqlExpr :=
  CqlExpr.comparison CqlField.typ ComparisonOp.eq (CqlValue.str "directory".data)

/-- A one-comparison expression used to witness the parameter-count
theorem. -/
def tagAExpr : CqlExpr :=
  CqlExpr.comparison CqlField.tag ComparisonOp.eq (CqlValue.str ['a'])

/-- The fragment `expr_to_sql` produces for `tagAExpr`. -/
def tagAFrag : SqlFragment :=
  { sql := ("EXISTS (SELECT 1 FROM item_tags it_0 JOIN tags t_0 "
      ++ "ON it_0.tag_id = t_0.id WHERE it_0.item_id = i.id "
      ++ "AND t_0.value = ?)").data
    params := [SqlParam.text ['a']] }

/-! ## Theorems -/

/-- A member of a duplicate-free list is counted exactly once. -/
theorem count_one_of_nodup_mem {α : Type} [BEq α] [LawfulBEq α]
    {l : List α} {x : α} (hnd : l.Nodup) (hx : x ∈ l) : l.count x = 1 := by
  induction l with
  | nil => simp at hx
  | cons a t ih =>
    rw [List.count_cons]
    rcases List.mem_cons.mp hx with rfl | hxt
    · have h0 : t.count x = 0 :=
        List.count_eq_zero.mpr (List.Nodup.not_mem hnd)
      simp [h0]
    · have hne : ¬(x == a) = true := by
        simp only [beq_iff_eq]
        rintro rfl
        exact (List.Nodup.not_mem hnd) hxt
      have hne2 : ¬(a = x) := fun hax => hne (by simp [hax])
      have ht : t.Nodup := (List.nodup_cons.mp hnd).2
      simp [hne, hne2, ih ht hxt]

/-- C9: `add_tag` is idempotent: for any item id and tag id, calling it
twice with the same arguments leaves exactly one `(item_id, tag_id)` row in
`item_tags`, and the second call succeeds without changing state (the
hypothesis is the table's primary-key invariant). -/
theorem C9_add_tag_idempotent (itemId tagId : Int) (itemTags : List (Int × Int))
    (hnodup : itemTags.Nodup) :
    addTag itemId tagId (addTag itemId tagId itemTags) = addTag itemId tagId itemTags ∧
    (addTag itemId tagId (addTag itemId tagId itemTags)).count (itemId, tagId) = 1 := by
  by_cases h : (itemId, tagId) ∈ itemTags
  · refine ⟨by simp [addTag, h], ?_⟩
    simp [addTag, h]
    exact count_one_of_nodup_mem hnodup h
  · refine ⟨by simp [addTag, h], ?_⟩
    simp [addTag, h]
    exact List.count_eq_zero.mpr h

/-- C9 witness: the idempotence theorem applied at a concrete table. -/
theorem C9_add_tag_idempotent_witness :
    addTag 1 2 (addTag 1 2 [(3, 4)]) = addTag 1 2 [(3, 4)] ∧
    (addTag 1 2 (addTag 1 2 [(3, 4)])).count (1, 2) = 1 :=
  C9_add_tag_idempotent 1 2 [(3, 4)] (by decide)

/-- C10: the CQL quoted-string unescaper is total (a Lean function on all
inputs) and never reports an error; it maps `\\\\`, `\\"`, `\\n`, `\\t` to
their escaped characters, keeps any other backslash-plus-character pair
verbatim, and keeps a trailing lone backslash.  The equations fully
characterize `unescapeString`. -/
theorem C10_unescape_total :
    unescapeString [] = [] ∧
    unescapeString ['\\'] = ['\\'] ∧
    (∀ r, unescapeString ('\\' :: '\\' :: r) = '\\' :: unescapeString r) ∧
    (∀ r, unescapeString ('\\' :: '"' :: r) = '"' :: unescapeString r) ∧
    (∀ r, unescapeString ('\\' :: 'n' :: r) = '\n' :: unescapeString r) ∧
    (∀ r, unescapeString ('\\' :: 't' :: r) = '\t' :: unescapeString r) ∧
    (∀ c r, c ≠ '"' → c ≠ '\\' → c ≠ 'n' → c ≠ 't' →
      unescapeString ('\\' :: c :: r) = '\\' :: c :: unescapeString r) ∧
    (∀ c r, c ≠ '\\' → unescapeString (c :: r) = c :: unescapeString r) := by
  refine ⟨rfl, rfl, ?_, ?_, ?_, ?_, ?_, ?_⟩
  · intro r; simp [unescapeString]
  · intro r; simp [unescapeString]
  · intro r; simp [unescapeString]
  · intro r; simp [unescapeString]
  · intro c r h1 h2 h3 h4
    simp [unescapeString, h1, h2, h3, h4]
  · intro c r h
    rw [unescapeString.eq_def]
    simp [h]

/-- C10 witness: the verbatim clause applied at a concrete character. -/
theorem C10_unescape_total_witness :
    unescapeString ('\\' :: 'x' :: ['y']) = '\\' :: 'x' :: unescapeString ['y'] :=
  C10_unescape_total.2.2.2.2.2.2.1 'x' ['y'] (by decide) (by decide) (by decide) (by decide)

/-- A successfully parsed decimal is non-empty. -/
theorem parseDecimal_ne_nil {num : List Char} {a : Int} {k : Nat}
    (h : parseDecimal num = some (a, k)) : num ≠ [] := by
  intro hnil
  subst hnil
  simp [parseDecimal, digitsToNat] at h

/-- C6: size literals with suffix B, KB, MB, GB (case-insensitive, decimal
fractions allowed) convert to bytes with multipliers 1, 1024, 1048576,
1073741824, truncating fractional bytes: 100B = 100, 1KB = 1024,
10MB = 10485760, 1GB = 1073741824, 1.5MB = 1572864; a literal whose
numeric part does not parse (10XB) yields `InvalidSize`.  The final
conjunct states the general conversion for every parsed numeric part
`a / 10 ^ k` (the hypothesis on characters rules out a unit letter inside
the numeric part). -/
theorem C6_size_parsing :
    parseSizeToBytes "100B".data = Except.ok 100 ∧
    parseSizeToBytes "1KB".data = Except.ok 1024 ∧
    parseSizeToBytes "10MB".data = Except.ok 10485760 ∧
    parseSizeToBytes "1GB".data = Except.ok 1073741824 ∧
    parseSizeToBytes "1.5MB".data = Except.ok 1572864 ∧
    parseSizeToBytes "10XB".data = Except.error (CqlParseError.invalidSize "10XB".data) ∧
    ∀ num a k, parseDecimal num = some (a, k) →
      (∀ c ∈ num, c.toUpper ≠ 'G' ∧ c.toUpper ≠ 'M' ∧ c.toUpper ≠ 'K') →
      parseSizeToBytes (num ++ "B".data) = Except.ok (Int.tdiv (a * 1) (10 ^ k)) ∧
      parseSizeToBytes (num ++ "KB".data) = Except.ok (Int.tdiv (a * 1024) (10 ^ k)) ∧
      parseSizeToBytes (num ++ "MB".data) = Except.ok (Int.tdiv (a * 1048576) (10 ^ k)) ∧
      parseSizeToBytes (num ++ "GB".data) = Except.ok (Int.tdiv (a * 1073741824) (10 ^ k)) := by
  refine ⟨by decide, by decide, by decide, by decide, by decide, by decide, ?_⟩
  intro num a k hparse hch
  have hne : num ≠ [] := parseDecimal_ne_nil hparse
  refine ⟨?_, ?_, ?_, ?_⟩
  · show parseSizeToBytes (num ++ ['B']) = _
    rcases List.eq_nil_or_concat num with hnil | ⟨ini, last, hconcat⟩
    · exact absurd hnil hne
    have hlast := hch last (by rw [hconcat]; simp)
    have hrev : (((num ++ ['B']).map Char.toUpper).reverse)
        = 'B' :: last.toUpper :: (ini.map Char.toUpper).reverse := by
      rw [hconcat]
      simp [List.concat_eq_append, List.map_append, List.reverse_append]
    rw [parseSizeToBytes, hrev]
    rw [show ('B' :: last.toUpper :: (ini.map Char.toUpper).reverse).take 2
        = ['B', last.toUpper] from rfl]
    rw [show ('B' :: last.toUpper :: (ini.map Char.toUpper).reverse).take 1
        = ['B'] from rfl]
    rw [if_neg (by simp [hlast.1]), if_neg (by simp [hlast.2.1]),
      if_neg (by simp [hlast.2.2]), if_pos rfl]
    have hlen : (num ++ ['B']).length - 1 = num.length := by simp
    rw [hlen, List.take_left]
    unfold sizeWithMult
    rw [hparse]
  · show parseSizeToBytes (num ++ ['K', 'B']) = _
    have hrev : (((num ++ ['K', 'B']).map Char.toUpper).reverse)
        = 'B' :: 'K' :: (num.map Char.toUpper).reverse := by
      simp [List.map_append, List.reverse_append]
    rw [parseSizeToBytes, hrev]
    rw [show ('B' :: 'K' :: (num.map Char.toUpper).reverse).take 2
        = ['B', 'K'] from rfl]
    rw [if_neg (by decide), if_neg (by decide), if_pos rfl]
    have hlen : (num ++ ['K', 'B']).length - 2 = num.length := by simp
    rw [hlen, List.take_left]
    unfold sizeWithMult
    rw [hparse]
  · show parseSizeToBytes (num ++ ['M', 'B']) = _
    have hrev : (((num ++ ['M', 'B']).map Char.toUpper).reverse)
        = 'B' :: 'M' :: (num.map Char.toUpper).reverse := by
      simp [List.map_append, List.reverse_append]
    rw [parseSizeToBytes, hrev]
    rw [show ('B' :: 'M' :: (num.map Char.toUpper).reverse).take 2
        = ['B', 'M'] from rfl]
    rw [if_neg (by decide), if_pos rfl]
    have hlen : (num ++ ['M', 'B']).length - 2 = num.length := by simp
    rw [hlen, List.take_left]
    unfold sizeWithMult
    rw [hparse]
  · show parseSizeToBytes (num ++ ['G', 'B']) = _
    have hrev : (((num ++ ['G', 'B']).map Char.toUpper).reverse)
        = 'B' :: 'G' :: (num.map Char.toUpper).reverse := by
      simp [List.map_append, List.reverse_append]
    rw [parseSizeToBytes, hrev]
    rw [show ('B' :: 'G' :: (num.map Char.toUpper).reverse).take 2
        = ['B', 'G'] from rfl]
    rw [if_pos rfl]
    have hlen : (num ++ ['G', 'B']).length - 2 = num.length := by simp
    rw [hlen, List.take_left]
    unfold sizeWithMult
    rw [hparse]

/-- C6 witness: the general conversion applied to the literal 2.5KB. -/
theorem C6_size_parsing_witness :
    parseSizeToBytes ("2.5".data ++ "KB".data) = Except.ok (Int.tdiv (25 * 1024) (10 ^ 1)) :=
  (C6_size_parsing.2.2.2.2.2.2 "2.5".data 25 1 (by decide) (by decide)).2.1

/-- C7: a quoted `modified` value of the form YYYY-MM-DD is accepted
exactly when year >= 1970, month in 1..12 and day in 1..31, and converts
to the UTC-midnight Unix timestamp by Hinnant's civil-from-days algorithm;
"2024-01-01" converts to 1704067200 and "1970-01-01" to 0. -/
theorem C7_date_parsing :
    (∀ s p0 p1 p2 y m d,
      s.splitOn '-' = [p0, p1, p2] →
      parseI32 p0 = some y →
      parseU32 p1 = some m →
      parseU32 p2 = some d →
      parseDateToTimestamp s =
        if 1 ≤ m ∧ m ≤ 12 ∧ 1 ≤ d ∧ d ≤ 31 ∧ 1970 ≤ y then
          Except.ok (ymdToUnix y m d)
        else
          Except.error (CqlParseError.invalidDate s)) ∧
    parseDateToTimestamp "2024-01-01".data = Except.ok 1704067200 ∧
    parseDateToTimestamp "1970-01-01".data = Except.ok 0 := by
  refine ⟨?_, by decide, by decide⟩
  intro s p0 p1 p2 y m d hsplit hy hm hd
  unfold parseDateToTimestamp
  simp only [hsplit, hy, hm, hd]
  by_cases hcond : 1 ≤ m ∧ m ≤ 12 ∧ 1 ≤ d ∧ d ≤ 31 ∧ 1970 ≤ y
  · rw [if_pos hcond]
    obtain ⟨h1, h2, h3, h4, h5⟩ := hcond
    rw [if_neg (by simp only [Bool.or_eq_true, decide_eq_true_eq]; omega)]
  · rw [if_neg hcond]
    have hcondB : (decide (m < 1) || decide (12 < m) || decide (d < 1)
        || decide (31 < d) || decide (y < 1970)) = true := by
      by_contra hb
      simp only [Bool.or_eq_true, decide_eq_true_eq, not_or, Nat.not_lt,
        Int.not_lt] at hb
      exact hcond ⟨hb.1.1.1.1, hb.1.1.1.2, hb.1.1.2, hb.1.2, hb.2⟩
    rw [if_pos hcondB]

/-- C7 witness: the acceptance theorem applied to 2024-06-15. -/
theorem C7_date_parsing_witness :
    parseDateToTimestamp "2024-06-15".data = Except.ok 1718409600 := by
  have h := C7_date_parsing.1 "2024-06-15".data "2024".data "06".data "15".data
    2024 6 15 (by decide) (by decide) (by decide) (by decide)
  rw [h, if_pos (by norm_num)]
  decide

/-- The reorder loop assigns each row the last supplied order for its id. -/
theorem reorderGroups_assigned (orders : List (Int × Int)) (rows : List GroupRow) :
    reorderGroups orders rows = rows.map fun r =>
      match assignedOrder orders r.id with
      | some v => { r with displayOrder := v }
      | none => r := by
  induction orders using List.reverseRecOn with
  | nil =>
    simp [reorderGroups, assignedOrder]
  | append_singleton l p ih =>
    rw [reorderGroups, List.foldl_concat]
    rw [show List.foldl applyOrder rows l = reorderGroups l rows from rfl, ih]
    rw [applyOrder, List.map_map]
    apply List.map_congr_left
    intro r _
    by_cases hid : p.1 = r.id
    · have hassign : assignedOrder (l ++ [p]) r.id = some p.2 := by
        unfold assignedOrder
        rw [List.filter_append]
        rw [show List.filter (fun q => decide (q.1 = r.id)) [p] = [p] from by
          simp [hid]]
        rw [List.getLast?_concat]
        rfl
      rw [hassign]
      cases hprev : assignedOrder l r.id <;> simp only [Function.comp, hprev] <;>
        simp [hid]
    · have hassign : assignedOrder (l ++ [p]) r.id = assignedOrder l r.id := by
        unfold assignedOrder
        rw [List.filter_append]
        rw [show List.filter (fun q => decide (q.1 = r.id)) [p] = [] from by
          simp [hid]]
        rw [List.append_nil]
      rw [hassign]
      cases hprev : assignedOrder l r.id <;> simp only [Function.comp, hprev] <;>
        simp [hid] <;> exact fun h => absurd h.symm hid

/-- A successful order assignment names a supplied pair. -/
theorem assignedOrder_mem {orders : List (Int × Int)} {i : Int} {v : Int}
    (h : assignedOrder orders i = some v) : (i, v) ∈ orders := by
  unfold assignedOrder at h
  cases hq : (orders.filter fun p => p.1 = i).getLast? with
  | none => rw [hq] at h; simp at h
  | some q =>
    rw [hq] at h
    simp at h
    have hmem : q ∈ orders.filter fun p => p.1 = i := by
      obtain ⟨hne, heq⟩ := List.mem_getLast?_eq_getLast (by rw [hq]; rfl)
      rw [heq]
      exact List.getLast_mem hne
    have h1 := List.mem_filter.mp hmem
    have h2 : q.1 = i := by simpa using h1.2
    have : (i, v) = q := by
      cases q; simp_all
    rw [this]
    exact h1.1

/-- A covered id gets some order assigned. -/
theorem assignedOrder_isSome {orders : List (Int × Int)} {i : Int}
    (h : ∃ p ∈ orders, p.1 = i) : ∃ v, assignedOrder orders i = some v := by
  obtain ⟨p, hp, hpi⟩ := h
  have hfil : p ∈ orders.filter fun q => q.1 = i :=
    List.mem_filter.mpr ⟨hp, by simpa using hpi⟩
  have hne : (orders.filter fun q => q.1 = i) ≠ [] := List.ne_nil_of_mem hfil
  have hsome := List.getLast?_isSome.mpr hne
  unfold assignedOrder
  cases hq : (orders.filter fun q => q.1 = i).getLast? with
  | none => rw [hq] at hsome; simp at hsome
  | some q => exact ⟨q.2, rfl⟩

/-- C4 amended: after any successful `reorder` whose supplied `(id, order)`
pairs carry pairwise-distinct orders and cover every `tag_groups` row, the
`display_order` values of all rows are pairwise distinct. -/
theorem C4_amended_reorder_distinct (orders : List (Int × Int)) (rows : List GroupRow)
    (hids : rows.Pairwise fun a b => a.id ≠ b.id)
    (hvals : (orders.map Prod.snd).Nodup)
    (hcover : ∀ r ∈ rows, ∃ p ∈ orders, p.1 = r.id) :
    ordersDistinct (reorderGroups orders rows) := by
  rw [reorderGroups_assigned, ordersDistinct, List.pairwise_map]
  apply List.Pairwise.imp_of_mem ?_ hids
  intro a b ha hb hne
  obtain ⟨va, hva⟩ := assignedOrder_isSome (hcover a ha)
  obtain ⟨vb, hvb⟩ := assignedOrder_isSome (hcover b hb)
  rw [hva, hvb]
  simp only []
  intro heq
  have hma : (a.id, va) ∈ orders := assignedOrder_mem hva
  have hmb : (b.id, vb) ∈ orders := assignedOrder_mem hvb
  have : (a.id, va) = (b.id, vb) := by
    apply List.inj_on_of_nodup_map hvals hma hmb
    simpa using heq
  exact hne (by injection this)

/-- C4 counterexample: starting from rows with distinct display orders, a
successful `reorder` whose pairs cover only one row leaves two rows with
equal `display_order`, refuting the claim as stated. -/
theorem C4_counterexample :
    ordersDistinct reorderFixtureRows ∧
    ¬ ordersDistinct (reorderGroups [(1, 1)] reorderFixtureRows) := by
  constructor
  · rw [ordersDistinct, reorderFixtureRows]
    decide
  · rw [ordersDistinct]
    decide

/-- C4 witness: the distinctness theorem applied at a concrete reorder. -/
theorem C4_amended_witness :
    ordersDistinct (reorderGroups [(1, 5), (2, 3)] reorderFixtureRows) :=
  C4_amended_reorder_distinct [(1, 5), (2, 3)] reorderFixtureRows
    (by rw [reorderFixtureRows]; decide) (by decide) (by rw [reorderFixtureRows]; decide)

/-- C3 counterexample: merging tag 1 into tag 2 with the final
source-tag `DELETE` statement failing returns an error yet leaves the
`item_tags` row already reassigned — persistent state is not what it was
before the operation, refuting the claim for the merge operation (which
spans two transactions). -/
theorem C3_counterexample :
    (tagServiceMerge 1 2 mergeFixtureDb [false, false, true]).1
      = Except.error DomainError.validationError ∧
    (tagServiceMerge 1 2 mergeFixtureDb [false, false, true]).2.1
      = { tags := [1, 2], itemTags := [(10, 2)] } ∧
    (tagServiceMerge 1 2 mergeFixtureDb [false, false, true]).2.1
      ≠ mergeFixtureDb := by
  refine ⟨by decide, by decide, by decide⟩

/-- C3 amended: every repository-level multi-row operation is atomic — if
`reassign_items` (one immediate transaction) or `delete` (one statement)
returns an error, persistent state is exactly as before that call; but
`TagService::merge` as a whole is not atomic (see the counterexample). -/
theorem C3_amended_repo_atomicity :
    (∀ src tgt db faults e db2 rest,
      reassignItems src tgt db faults = (Except.error e, db2, rest) → db2 = db) ∧
    (∀ id db faults e db2 rest,
      tagRepoDelete id db faults = (Except.error e, db2, rest) → db2 = db) := by
  constructor
  · intro src tgt db faults e db2 rest h
    unfold reassignItems at h
    rcases hf1 : nextFault faults with ⟨f1, faults1⟩
    rw [hf1] at h
    cases f1 with
    | true =>
      simp only [if_pos] at h
      simp only [Prod.mk.injEq] at h
      exact h.2.1.symm
    | false =>
      simp only [Bool.false_eq_true, if_neg, if_false] at h
      rcases hf2 : nextFault faults1 with ⟨f2, faults2⟩
      rw [hf2] at h
      cases f2 with
      | true =>
        simp only [if_pos] at h
        simp only [Prod.mk.injEq] at h
        exact h.2.1.symm
      | false =>
        simp only [Bool.false_eq_true, if_neg, if_false] at h
        simp only [Prod.mk.injEq] at h
        exact absurd h.1.symm (by simp)
  · intro id db faults e db2 rest h
    unfold tagRepoDelete at h
    rcases hf1 : nextFault faults with ⟨f1, faults1⟩
    rw [hf1] at h
    cases f1 with
    | true =>
      simp only [if_pos] at h
      simp only [Prod.mk.injEq] at h
      exact h.2.1.symm
    | false =>
      simp only [Bool.false_eq_true, if_neg, if_false] at h
      by_cases hmem : id ∈ db.tags
      · rw [if_pos hmem] at h
        simp only [Prod.mk.injEq] at h
        exact absurd h.1.symm (by simp)
      · rw [if_neg hmem] at h
        simp only [Prod.mk.injEq] at h
        exact h.2.1.symm

/-- C3 witness: reassign atomicity applied at a concrete failing run. -/
theorem C3_amended_repo_atomicity_witness :
    (reassignItems 1 2 mergeFixtureDb [true]).2.1 = mergeFixtureDb :=
  C3_amended_repo_atomicity.1 1 2 mergeFixtureDb [true]
    DomainError.validationError (reassignItems 1 2 mergeFixtureDb [true]).2.1 []
    (by decide)

/-- C1 counterexample: a non-empty CQL search through the search service
returns its result without attempting any history save (the attempted-save
list is empty), refuting the claim for CQL searches. -/
theorem C1_counterexample :
    trimChars "tag = \"x\"".data ≠ [] ∧
    (searchServiceSearchCql cqlOracleOk "tag = \"x\"".data).1 = Except.ok [] ∧
    (searchServiceSearchCql cqlOracleOk "tag = \"x\"".data).2 = [] := by
  refine ⟨by decide, ?_, ?_⟩ <;> rfl

/-- C1 amended: every non-empty combined search whose repository call
succeeds attempts exactly one history save (of the normalized criteria)
before returning, while a CQL search never attempts a history save. -/
theorem C1_amended_history_save :
    (∀ (oracle : List Int → SearchMode → Option (List Char) →
        Except DomainError (List Int)) criteria results,
      (!criteria.tagIds.isEmpty
        || (criteria.filenameQuery.map fun q => !(trimChars q).isEmpty).getD false)
        = true →
      oracle criteria.tagIds criteria.mode criteria.filenameQuery
        = Except.ok results →
      (searchServiceSearch oracle criteria).2
        = [searchCriteriaNew criteria.filenameQuery criteria.tagIds criteria.mode]) ∧
    (∀ (oracle : List Char → Except DomainError (List Int)) query,
      (searchServiceSearchCql oracle query).2 = []) := by
  constructor
  · intro oracle criteria results hne hok
    simp only [searchServiceSearch]
    have hcond : (!(!criteria.tagIds.isEmpty)
        && !((criteria.filenameQuery.map fun q => !(trimChars q).isEmpty).getD false))
        = false := by
      cases h1 : criteria.tagIds.isEmpty <;>
        cases h2 : ((criteria.filenameQuery.map fun q => !(trimChars q).isEmpty).getD false) <;>
        simp_all
    rw [hcond]
    simp only [Bool.false_eq_true, if_false]
    rw [hok]
  · intro oracle query
    simp only [searchServiceSearchCql]
    split <;> rfl

/-- C1 witness: the combined-search clause applied at concrete criteria. -/
theorem C1_amended_history_save_witness :
    (searchServiceSearch combinedOracleOk
      { tagIds := [1], mode := SearchMode.and, filenameQuery := none }).2
      = [searchCriteriaNew none [1] SearchMode.and] :=
  C1_amended_history_save.1 combinedOracleOk
    { tagIds := [1], mode := SearchMode.and, filenameQuery := none } []
    (by decide) rfl

/-- Extracting strings from a value list preserves its length. -/
theorem extractStrings_length :
    ∀ {vs : List CqlValue} {strs : List (List Char)},
      extractStrings vs = some strs → strs.length = vs.length := by
  intro vs
  induction vs with
  | nil => intro strs h; simp [extractStrings] at h; simp [h.symm]
  | cons v rest ih =>
    intro strs h
    unfold extractStrings at h
    cases hs : extractString v with
    | none => rw [hs] at h; simp at h
    | some s =>
      rw [hs] at h
      cases hr : extractStrings rest with
      | none => rw [hr] at h; simp at h
      | some srest =>
        rw [hr] at h
        simp at h
        rw [h.symm]
        simp [ih hr]

/-- Parameters pushed by the type arm of IN sum the per-value weights. -/
theorem typeInConds_length :
    ∀ {vs : List CqlValue} {conds : List (List Char)} {ps : List SqlParam},
      typeInConds vs = some (conds, ps) →
      ps.length = (vs.map typeValueWeight).sum := by
  intro vs
  induction vs with
  | nil => intro conds ps h; simp [typeInConds] at h; simp [h.2.symm]
  | cons v rest ih =>
    intro conds ps h
    unfold typeInConds at h
    cases hs : extractString v with
    | none => rw [hs] at h; simp at h
    | some s =>
      rw [hs] at h
      cases hr : typeInConds rest with
      | none => rw [hr] at h; simp at h
      | some cp =>
        obtain ⟨conds0, ps0⟩ := cp
        rw [hr] at h
        simp only [Option.bind_eq_bind, Option.some_bind] at h
        by_cases hdir : s.map Char.toLower = "directory".data
        · rw [if_pos hdir] at h
          simp only [Option.some.injEq, Prod.mk.injEq] at h
          obtain ⟨hc, hp⟩ := h
          rw [← hp]
          simp only [List.map_cons, List.sum_cons]
          rw [show typeValueWeight v = 0 from by simp [typeValueWeight, hs, hdir]]
          simpa using ih hr
        · rw [if_neg hdir] at h
          simp only [Option.some.injEq, Prod.mk.injEq] at h
          obtain ⟨hc, hp⟩ := h
          rw [← hp]
          simp only [List.map_cons, List.sum_cons, List.length_append,
            List.length_map]
          rw [show typeValueWeight v
              = (typeToExtensions (s.map Char.toLower)).length from by
            simp [typeValueWeight, hs, hdir]]
          rw [ih hr]

/-- Tag comparisons push exactly one parameter. -/
theorem buildTagComparisonSql_params {op : ComparisonOp} {v : CqlValue}
    {c : Nat} {p : List SqlParam} {out : List Char × Nat × List SqlParam}
    (h : buildTagComparisonSql op v c p = some out) :
    out.2.2.length = p.length + 1 := by
  unfold buildTagComparisonSql at h
  cases op with
  | eq =>
    cases hs : extractString v with
    | none => rw [hs] at h; simp at h
    | some s =>
      rw [hs] at h
      simp only [Option.bind_eq_bind, Option.some_bind, Option.some.injEq] at h
      rw [← h]; simp
  | notEq =>
    cases hs : extractString v with
    | none => rw [hs] at h; simp at h
    | some s =>
      rw [hs] at h
      simp only [Option.bind_eq_bind, Option.some_bind, Option.some.injEq] at h
      rw [← h]; simp
  | like =>
    cases hs : extractString v with
    | none => rw [hs] at h; simp at h
    | some s =>
      rw [hs] at h
      simp only [Option.bind_eq_bind, Option.some_bind, Option.some.injEq] at h
      rw [← h]; simp
  | gt => simp at h
  | lt => simp at h
  | gte => simp at h
  | lte => simp at h

/-- Name comparisons push exactly one parameter. -/
theorem buildNameSql_params {op : ComparisonOp} {v : CqlValue}
    {p : List SqlParam} {out : List Char × List SqlParam}
    (h : buildNameSql op v p = some out) :
    out.2.length = p.length + 1 := by
  unfold buildNameSql at h
  cases hs : extractString v with
  | none => rw [hs] at h; simp at h
  | some s =>
    rw [hs] at h
    simp only [Option.bind_eq_bind, Option.some_bind] at h
    cases op with
    | eq => simp only [Option.some.injEq] at h; rw [← h]; simp
    | notEq => simp only [Option.some.injEq] at h; rw [← h]; simp
    | like => simp only [Option.some.injEq] at h; rw [← h]; simp
    | gt => simp at h
    | lt => simp at h
    | gte => simp at h
    | lte => simp at h

/-- Size comparisons push exactly one parameter. -/
theorem buildSizeSql_params {op : ComparisonOp} {v : CqlValue}
    {p : List SqlParam} {out : List Char × List SqlParam}
    (h : buildSizeSql op v p = some out) :
    out.2.length = p.length + 1 := by
  unfold buildSizeSql at h
  cases hb : extractSize v with
  | none => rw [hb] at h; simp at h
  | some b =>
    rw [hb] at h
    simp only [Option.bind_eq_bind, Option.some_bind] at h
    cases ho : comparisonOpToSql op with
    | none => rw [ho] at h; simp at h
    | some o =>
      rw [ho] at h
      simp only [Option.some_bind, Option.some.injEq] at h
      rw [← h]
      simp

/-- Modified comparisons push exactly one parameter. -/
theorem buildModifiedSql_params {op : ComparisonOp} {v : CqlValue}
    {p : List SqlParam} {out : List Char × List SqlParam}
    (h : buildModifiedSql op v p = some out) :
    out.2.length = p.length + 1 := by
  unfold buildModifiedSql at h
  cases hb : extractTimestamp v with
  | none => rw [hb] at h; simp at h
  | some b =>
    rw [hb] at h
    simp only [Option.bind_eq_bind, Option.some_bind] at h
    cases ho : comparisonOpToSql op with
    | none => rw [ho] at h; simp at h
    | some o =>
      rw [ho] at h
      simp only [Option.some_bind, Option.some.injEq] at h
      rw [← h]
      simp

/-- Type comparisons push one parameter per extension of the type class. -/
theorem buildTypeSql_params {op : ComparisonOp} {v : CqlValue}
    {p : List SqlParam} {out : List Char × List SqlParam}
    (h : buildTypeSql op v p = some out) :
    out.2.length = p.length + typeValueWeight v := by
  unfold buildTypeSql at h
  cases hs : extractString v with
  | none => rw [hs] at h; simp at h
  | some s =>
    rw [hs] at h
    simp only [Option.bind_eq_bind, Option.some_bind] at h
    by_cases hdir : s.map Char.toLower = "directory".data
    · rw [if_pos hdir] at h
      have hw : typeValueWeight v = 0 := by simp [typeValueWeight, hs, hdir]
      rw [hw]
      cases op with
      | eq => simp only [Option.some.injEq] at h; rw [← h]; simp
      | notEq => simp only [Option.some.injEq] at h; rw [← h]; simp
      | like => simp at h
      | gt => simp at h
      | lt => simp at h
      | gte => simp at h
      | lte => simp at h
    · rw [if_neg hdir] at h
      have hw : typeValueWeight v
          = (typeToExtensions (s.map Char.toLower)).length := by
        simp [typeValueWeight, hs, hdir]
      rw [hw]
      by_cases hext : (typeToExtensions (s.map Char.toLower)).isEmpty
      · rw [if_pos hext] at h
        rw [List.isEmpty_iff.mp hext]
        cases op with
        | eq => simp only [Option.some.injEq] at h; rw [← h]; simp
        | notEq => simp only [Option.some.injEq] at h; rw [← h]; simp
        | like => simp at h
        | gt => simp at h
        | lt => simp at h
        | gte => simp at h
        | lte => simp at h
      · rw [if_neg hext] at h
        cases op with
        | eq => simp only [Option.some.injEq] at h; rw [← h]; simp
        | notEq => simp only [Option.some.injEq] at h; rw [← h]; simp
        | like => simp at h
        | gt => simp at h
        | lt => simp at h
        | gte => simp at h
        | lte => simp at h

/-- Tag IN pushes one parameter per value. -/
theorem buildTagInSql_params {values : List CqlValue} {c : Nat}
    {p : List SqlParam} {out : List Char × Nat × List SqlParam}
    (h : buildTagInSql values c p = some out) :
    out.2.2.length = p.length + values.length := by
  unfold buildTagInSql at h
  cases hs : extractStrings values with
  | none => rw [hs] at h; simp at h
  | some strs =>
    rw [hs] at h
    simp only [Option.bind_eq_bind, Option.some_bind, Option.some.injEq] at h
    rw [← h]
    simp [extractStrings_length hs]

/-- When the type arm of IN yields no conditions, it pushed no parameters. -/
theorem typeInConds_empty_params :
    ∀ {vs : List CqlValue} {conds : List (List Char)} {ps : List SqlParam},
      typeInConds vs = some (conds, ps) → conds.isEmpty = true →
      ps.length = 0 := by
  intro vs
  induction vs with
  | nil => intro conds ps hc _; simp [typeInConds] at hc; simp [hc.2.symm]
  | cons v rest ih =>
    intro conds ps hc hemp
    unfold typeInConds at hc
    cases hsv : extractString v with
    | none => rw [hsv] at hc; simp at hc
    | some s =>
      rw [hsv] at hc
      cases hr : typeInConds rest with
      | none => rw [hr] at hc; simp at hc
      | some cp2 =>
        obtain ⟨conds2, ps2⟩ := cp2
        rw [hr] at hc
        simp only [Option.bind_eq_bind, Option.some_bind] at hc
        by_cases hdir : s.map Char.toLower = "directory".data
        · rw [if_pos hdir] at hc
          simp only [Option.some.injEq, Prod.mk.injEq] at hc
          rw [← hc.1] at hemp
          simp at hemp
        · rw [if_neg hdir] at hc
          simp only [Option.some.injEq, Prod.mk.injEq] at hc
          rw [← hc.1] at hemp
          rw [List.isEmpty_iff] at hemp
          obtain ⟨hm, hcnd⟩ := List.append_eq_nil.mp hemp
          have hext : typeToExtensions (s.map Char.toLower) = [] := by
            cases hx : typeToExtensions (s.map Char.toLower) with
            | nil => rfl
            | cons a b => rw [hx] at hm; simp at hm
          rw [← hc.2]
          simp [hext]
          exact List.length_eq_zero.mp (ih hr (by simp [List.isEmpty_iff, hcnd]))

/-- IN pushes `paramWeight` parameters. -/
theorem buildInSql_params {field : CqlField} {values : List CqlValue}
    {c : Nat} {p : List SqlParam} {out : List Char × Nat × List SqlParam}
    (h : buildInSql field values c p = some out) :
    out.2.2.length = p.length + paramWeight (CqlExpr.inExpr field values) := by
  unfold buildInSql at h
  cases field with
  | tag =>
    rw [show paramWeight (CqlExpr.inExpr CqlField.tag values)
      = values.length from by simp [paramWeight]]
    exact buildTagInSql_params h
  | name =>
    rw [show paramWeight (CqlExpr.inExpr CqlField.name values)
      = values.length from by simp [paramWeight]]
    cases hs : extractStrings values with
    | none => rw [hs] at h; simp at h
    | some strs =>
      rw [hs] at h
      simp only [Option.bind_eq_bind, Option.some_bind, Option.some.injEq] at h
      rw [← h]
      simp [extractStrings_length hs]
  | typ =>
    rw [show paramWeight (CqlExpr.inExpr CqlField.typ values)
      = (values.map typeValueWeight).sum from by simp [paramWeight]]
    cases hc : typeInConds values with
    | none => rw [hc] at h; simp at h
    | some cp =>
      obtain ⟨conds, ps⟩ := cp
      rw [hc] at h
      simp only [Option.bind_eq_bind, Option.some_bind] at h
      by_cases hemp : conds.isEmpty
      · rw [if_pos hemp] at h
        simp only [Option.some.injEq] at h
        rw [← h]
        have hps : ps.length = (values.map typeValueWeight).sum :=
          typeInConds_length hc
        have hz : ps.length = 0 := typeInConds_empty_params hc hemp
        rw [← hps, hz]
        simp
      · rw [if_neg hemp] at h
        simp only [Option.some.injEq] at h
        rw [← h]
        simp [typeInConds_length hc]
  | size => simp at h
  | modified => simp at h

/-- The compiler appends exactly `paramWeight` parameters. -/
theorem buildSql_params :
    ∀ (e : CqlExpr) {c : Nat} {p : List SqlParam}
      {out : List Char × Nat × List SqlParam},
      buildSql e c p = some out → out.2.2.length = p.length + paramWeight e := by
  intro e
  induction e with
  | comparison field op value =>
    intro c p out h
    unfold buildSql at h
    cases field with
    | tag =>
      rw [show paramWeight (CqlExpr.comparison CqlField.tag op value) = 1 from by
        simp [paramWeight]]
      exact buildTagComparisonSql_params h
    | name =>
      rw [show paramWeight (CqlExpr.comparison CqlField.name op value) = 1 from by
        simp [paramWeight]]
      cases hb : buildNameSql op value p with
      | none => rw [hb] at h; simp at h
      | some sp =>
        rw [hb] at h
        simp only [Option.bind_eq_bind, Option.some_bind, Option.some.injEq] at h
        rw [← h]
        exact buildNameSql_params hb
    | size =>
      rw [show paramWeight (CqlExpr.comparison CqlField.size op value) = 1 from by
        simp [paramWeight]]
      cases hb : buildSizeSql op value p with
      | none => rw [hb] at h; simp at h
      | some sp =>
        rw [hb] at h
        simp only [Option.bind_eq_bind, Option.some_bind, Option.some.injEq] at h
        rw [← h]
        exact buildSizeSql_params hb
    | modified =>
      rw [show paramWeight (CqlExpr.comparison CqlField.modified op value) = 1 from by
        simp [paramWeight]]
      cases hb : buildModifiedSql op value p with
      | none => rw [hb] at h; simp at h
      | some sp =>
        rw [hb] at h
        simp only [Option.bind_eq_bind, Option.some_bind, Option.some.injEq] at h
        rw [← h]
        exact buildModifiedSql_params hb
    | typ =>
      rw [show paramWeight (CqlExpr.comparison CqlField.typ op value)
        = typeValueWeight value from by simp [paramWeight]]
      cases hb : buildTypeSql op value p with
      | none => rw [hb] at h; simp at h
      | some sp =>
        rw [hb] at h
        simp only [Option.bind_eq_bind, Option.some_bind, Option.some.injEq] at h
        rw [← h]
        exact buildTypeSql_params hb
  | inExpr field values =>
    intro c p out h
    unfold buildSql at h
    exact buildInSql_params h
  | and left right ihl ihr =>
    intro c p out h
    unfold buildSql at h
    cases hl : buildSql left c p with
    | none => rw [hl] at h; simp at h
    | some outl =>
      obtain ⟨ls, lc, lp⟩ := outl
      rw [hl] at h
      simp only [Option.bind_eq_bind, Option.some_bind] at h
      cases hr : buildSql right lc lp with
      | none => rw [hr] at h; simp at h
      | some outr =>
        obtain ⟨rs, rc, rp⟩ := outr
        rw [hr] at h
        simp only [Option.some_bind, Option.some.injEq] at h
        rw [← h]
        have h1 := ihl hl
        have h2 := ihr hr
        simp only [paramWeight]
        simp at h1 h2
        simp [h2, h1]
        omega
  | or left right ihl ihr =>
    intro c p out h
    unfold buildSql at h
    cases hl : buildSql left c p with
    | none => rw [hl] at h; simp at h
    | some outl =>
      obtain ⟨ls, lc, lp⟩ := outl
      rw [hl] at h
      simp only [Option.bind_eq_bind, Option.some_bind] at h
      cases hr : buildSql right lc lp with
      | none => rw [hr] at h; simp at h
      | some outr =>
        obtain ⟨rs, rc, rp⟩ := outr
        rw [hr] at h
        simp only [Option.some_bind, Option.some.injEq] at h
        rw [← h]
        have h1 := ihl hl
        have h2 := ihr hr
        simp only [paramWeight]
        simp at h1 h2
        simp [h2, h1]
        omega
  | not inner ih =>
    intro c p out h
    unfold buildSql at h
    cases hi : buildSql inner c p with
    | none => rw [hi] at h; simp at h
    | some outi =>
      obtain ⟨is, ic, ip⟩ := outi
      rw [hi] at h
      simp only [Option.bind_eq_bind, Option.some_bind, Option.some.injEq] at h
      rw [← h]
      have h1 := ih hi
      simp only [paramWeight]
      simp at h1
      simp [h1]

/-- C2 counterexample: the query `type = "directory"` is accepted by
`parse_cql` and has one literal leaf, yet `expr_to_sql` emits zero bound
parameters, refuting the one-parameter-per-literal-leaf claim. -/
theorem C2_counterexample :
    parseCql "type = \"directory\"".data = Except.ok typeDirectoryExpr ∧
    litLeafCount typeDirectoryExpr = 1 ∧
    (exprToSql typeDirectoryExpr).map (fun f => f.params.length) = some 0 := by
  refine ⟨by decide, by decide, by decide⟩

/-- C2 amended: for every query string accepted by `parse_cql` whose
compilation succeeds, the parameter list length equals the number of
literal leaves counted with each `type` value weighted by the number of
file extensions of its type class (zero for `directory` and unknown
types) instead of one. -/
theorem C2_amended_param_count (x : List Char) (e : CqlExpr) (frag : SqlFragment)
    (_hparse : parseCql x = Except.ok e) (hsql : exprToSql e = some frag) :
    frag.params.length = paramWeight e := by
  unfold exprToSql at hsql
  cases hb : buildSql e 0 [] with
  | none => rw [hb] at hsql; simp at hsql
  | some out =>
    rw [hb] at hsql
    simp only [Option.map_some', Option.some.injEq] at hsql
    have hlen := buildSql_params e hb
    rw [← hsql]
    simpa using hlen

/-- C2 witness: the parameter-count theorem applied at a one-leaf query. -/
theorem C2_amended_param_count_witness :
    tagAFrag.params.length = paramWeight tagAExpr :=
  C2_amended_param_count ("tag = \"a\"".data) tagAExpr tagAFrag
    (by decide) (by decide)

/-- Reading back a drive's saved USN state returns what was written. -/
theorem loadUsnState_save (w : UsnWorld) (d : Char) (u : Int) (jid : Nat) :
    loadUsnState (saveUsnState w d u jid) d = some (u, jid) := by
  unfold loadUsnState saveUsnState
  simp only []
  induction w.usnState with
  | nil => simp
  | cons a t ih =>
    by_cases ha : a.1 = d.toUpper
    · simpa [List.filter_cons, ha] using ih
    · simpa [List.filter_cons, ha] using ih

/-- C8: for an NTFS drive with an active journal and no saved USN state
row, a refresh reports no item updates and no reconciliation output for
that drive, but writes a state row recording the journal's current
`next_usn` and `journal_id`. -/
theorem C8_first_time_drive (env : Char → DriveEnv) (d : Char) (world : UsnWorld)
    (rom cv : Bool) (j : JournalData)
    (hntfs : (env d).isNtfs = true)
    (hjournal : (env d).journal = JournalQuery.active j)
    (hstate : loadUsnState world d = none) :
    ∃ result world2,
      usnRefresh env [d] rom cv world = Except.ok (result, world2) ∧
      result.itemsUpdated = [] ∧
      result.firstTimeDrives = [driveLabel d] ∧
      loadUsnState world2 d = some (j.nextUsn, j.journalId) := by
  have hpd : processDrive (env d) d rom
      ⟨world, emptyRefreshResult, [], []⟩
      = Except.ok
        ⟨saveUsnState world d j.nextUsn j.journalId,
         ⟨[driveLabel d], [], [], [], [driveLabel d], 0⟩,
         [⟨d, [], j.nextUsn, j.journalId⟩], []⟩ := by
    unfold processDrive
    rw [hntfs, hjournal]
    simp [hstate, emptyRefreshResult]
  refine ⟨⟨[driveLabel d], [], [], [], [driveLabel d], 0⟩,
    saveUsnState (saveUsnState world d j.nextUsn j.journalId) d j.nextUsn
      j.journalId, ?_, rfl, rfl, ?_⟩
  · unfold usnRefresh
    simp only [List.foldl_cons, List.foldl_nil, hpd]
    simp
  · exact loadUsnState_save _ d j.nextUsn j.journalId

/-- Tag rows keyed by another id do not change a stored tag list. -/
theorem sortedTagsIn_append_other (tr : List (Int × Int)) (l : List Int)
    (n id : Int) (hid : id ≠ n) :
    sortedTagsIn (tr ++ l.map fun t => (n, t)) id = sortedTagsIn tr id := by
  unfold sortedTagsIn
  rw [List.filter_append, List.filter_map]
  rw [show List.filter ((fun p : Int × Int => decide (p.1 = id))
      ∘ fun t => (n, t)) l = [] from
    List.filter_eq_nil.mpr fun t _ => by
      simp only [Function.comp, decide_eq_true_eq]
      exact fun h => hid h.symm]
  simp

/-- A fresh id's stored tag list is exactly the inserted sorted list. -/
theorem sortedTagsIn_append_fresh (tr : List (Int × Int)) (l : List Int)
    (n : Int) (hfresh : ∀ p ∈ tr, p.1 ≠ n)
    (hsorted : List.Sorted (· ≤ ·) l) :
    sortedTagsIn (tr ++ l.map fun t => (n, t)) n = l := by
  unfold sortedTagsIn
  rw [List.filter_append]
  rw [show List.filter (fun p => decide (p.1 = n)) tr = [] from
    List.filter_eq_nil.mpr fun p hp => by simp [hfresh p hp]]
  rw [List.filter_map]
  rw [show List.filter ((fun p : Int × Int => decide (p.1 = n))
      ∘ fun t => (n, t)) l = l from List.filter_eq_self.mpr fun t _ => by simp]
  rw [List.nil_append]
  rw [show (l.map fun t => (n, t)).map Prod.snd = l from by
    rw [List.map_map]; simp]
  exact List.Sorted.insertionSort_eq hsorted

/-- When no row matches the criteria, the candidate scan finds nothing. -/
theorem historyFind_none (st : HistoryState) (C : SearchCriteria)
    (hempty : matchingRows st C = []) :
    ((st.rows.filter fun r =>
        r.textQuery = C.textQuery && r.mode = C.mode).map (·.id)).find?
      (fun id => storedTagsOf st id = C.tagIds) = none := by
  rw [List.find?_eq_none]
  intro id hid hpred
  obtain ⟨r, hr, hrid⟩ := List.mem_map.mp hid
  obtain ⟨hrrows, hcond⟩ := List.mem_filter.mp hr
  have hmem : r ∈ matchingRows st C := by
    unfold matchingRows
    apply List.mem_filter.mpr
    refine ⟨hrrows, ?_⟩
    simp only [Bool.and_eq_true, decide_eq_true_eq] at hcond ⊢
    refine ⟨⟨hcond.1, hcond.2⟩, ?_⟩
    rw [hrid]
    simpa using hpred
  rw [hempty] at hmem
  simp at hmem

/-- With no matching row, save inserts a fresh header and its tag rows. -/
theorem historySave_insert (C : SearchCriteria) (t : Int) (st : HistoryState)
    (hempty : matchingRows st C = []) :
    historySave C t st
      = ⟨st.rows ++ [⟨st.nextId, C.textQuery, C.mode, t⟩],
         st.tagRows ++ C.tagIds.map fun tg => (st.nextId, tg),
         st.nextId + 1⟩ := by
  simp only [historySave]
  rw [historyFind_none st C hempty]

/-- In a state with no matching row, any header-matching row has the wrong
tag set. -/
theorem noMatch_pred_false (st : HistoryState) (C : SearchCriteria)
    (hempty : matchingRows st C = []) :
    ∀ r ∈ st.rows, r.textQuery = C.textQuery → r.mode = C.mode →
      storedTagsOf st r.id ≠ C.tagIds := by
  intro r hr hq hm htags
  have hmem : r ∈ matchingRows st C := by
    unfold matchingRows
    apply List.mem_filter.mpr
    refine ⟨hr, ?_⟩
    simp only [Bool.and_eq_true, decide_eq_true_eq]
    exact ⟨⟨hq, hm⟩, htags⟩
  rw [hempty] at hmem
  simp at hmem

/-- C5: saving the same search criteria twice yields exactly one stored
history row — the freshly inserted one — whose `last_used_at` equals the
later save time; and two criteria whose tag-id lists differ only in order
(same text query and mode) normalize to the same `SearchCriteria` value,
hence collapse to the same history row. -/
theorem C5_history_dedup :
    (∀ (st : HistoryState) (C : SearchCriteria) (t1 t2 : Int),
      (∀ r ∈ st.rows, r.id < st.nextId) →
      (∀ p ∈ st.tagRows, p.1 < st.nextId) →
      List.Sorted (· ≤ ·) C.tagIds →
      matchingRows st C = [] →
      matchingRows (historySave C t2 (historySave C t1 st)) C
        = [⟨st.nextId, C.textQuery, C.mode, t2⟩]) ∧
    (∀ (q : Option (List Char)) (l1 l2 : List Int) (m : SearchMode),
      l1.Perm l2 → searchCriteriaNew q l1 m = searchCriteriaNew q l2 m) := by
  constructor
  · intro st C t1 t2 hfreshR hfreshT hsorted hempty
    rw [historySave_insert C t1 st hempty]
    have hne : ∀ r ∈ st.rows, r.id ≠ st.nextId :=
      fun r hr => ne_of_lt (hfreshR r hr)
    have hneT : ∀ p ∈ st.tagRows, p.1 ≠ st.nextId :=
      fun p hp => ne_of_lt (hfreshT p hp)
    set newRow : HistoryRow := ⟨st.nextId, C.textQuery, C.mode, t1⟩ with hnrdef
    set updRow : HistoryRow := ⟨st.nextId, C.textQuery, C.mode, t2⟩ with hupdef
    set newTR : List (Int × Int) :=
      st.tagRows ++ C.tagIds.map fun tg => (st.nextId, tg) with htrdef
    set st1 : HistoryState := ⟨st.rows ++ [newRow], newTR, st.nextId + 1⟩
      with hst1def
    have htags_new : sortedTagsIn newTR st.nextId = C.tagIds := by
      rw [htrdef]
      exact sortedTagsIn_append_fresh _ _ _ hneT hsorted
    have htags_old : ∀ id, id ≠ st.nextId →
        sortedTagsIn newTR id = sortedTagsIn st.tagRows id := by
      intro id hid
      rw [htrdef]
      exact sortedTagsIn_append_other _ _ _ _ hid
    have hfilter1 : List.filter (fun r : HistoryRow =>
        r.textQuery = C.textQuery && r.mode = C.mode) [newRow] = [newRow] := by
      simp [hnrdef]
    have hfindOld : (((st.rows.filter fun r =>
        r.textQuery = C.textQuery && r.mode = C.mode).map (·.id)).find?
        fun id => storedTagsOf st1 id = C.tagIds) = none := by
      rw [List.find?_eq_none]
      intro id hid hpred
      obtain ⟨r, hr, hrid⟩ := List.mem_map.mp hid
      obtain ⟨hrrows, hcond⟩ := List.mem_filter.mp hr
      have hidn : id ≠ st.nextId := by rw [← hrid]; exact hne r hrrows
      have hst1tags : storedTagsOf st1 id = sortedTagsIn st.tagRows id := by
        show sortedTagsIn newTR id = _
        exact htags_old id hidn
      rw [hst1tags] at hpred
      simp only [Bool.and_eq_true, decide_eq_true_eq] at hcond hpred
      rw [← hrid] at hpred
      exact noMatch_pred_false st C hempty r hrrows hcond.1 hcond.2 hpred
    have hfindNew : (([newRow].map (·.id)).find?
        fun id => storedTagsOf st1 id = C.tagIds) = some st.nextId := by
      have : storedTagsOf st1 st.nextId = C.tagIds := by
        show sortedTagsIn newTR st.nextId = _
        exact htags_new
      simp [hnrdef, this]
    have hfind2 : ((st1.rows.filter fun r =>
        r.textQuery = C.textQuery && r.mode = C.mode).map (·.id)).find?
        (fun id => storedTagsOf st1 id = C.tagIds) = some st.nextId := by
      rw [show st1.rows = st.rows ++ [newRow] from rfl]
      rw [List.filter_append, hfilter1, List.map_append, List.find?_append,
        hfindOld, hfindNew]
      rfl
    have hstep2 : historySave C t2 st1
        = ⟨st1.rows.map fun r =>
            if r.id = st.nextId then ⟨r.id, r.textQuery, r.mode, t2⟩ else r,
          st1.tagRows, st1.nextId⟩ := by
      simp only [historySave]
      rw [hfind2]
    rw [hstep2]
    have hrows2 : (st1.rows.map fun r =>
        if r.id = st.nextId then
          (⟨r.id, r.textQuery, r.mode, t2⟩ : HistoryRow) else r)
        = st.rows ++ [updRow] := by
      rw [show st1.rows = st.rows ++ [newRow] from rfl, List.map_append]
      congr 1
      · rw [List.map_congr_left (g := id) ?_, List.map_id]
        intro r hr
        simp [hne r hr]
      · simp [hnrdef, hupdef]
    rw [hrows2]
    have hTR2 : st1.tagRows = newTR := rfl
    rw [hTR2]
    unfold matchingRows
    have hfilterOld : List.filter (fun r : HistoryRow =>
        r.textQuery = C.textQuery && r.mode = C.mode
          && storedTagsOf ⟨st.rows ++ [updRow], newTR, st1.nextId⟩ r.id
            = C.tagIds) st.rows = [] := by
      apply List.filter_eq_nil.mpr
      intro r hr
      simp only [Bool.and_eq_true, decide_eq_true_eq, not_and]
      intro hqm htags
      have hst2tags : storedTagsOf ⟨st.rows ++ [updRow], newTR, st1.nextId⟩ r.id
          = sortedTagsIn st.tagRows r.id := by
        show sortedTagsIn newTR r.id = _
        exact htags_old r.id (hne r hr)
      rw [hst2tags] at htags
      exact noMatch_pred_false st C hempty r hr hqm.1 hqm.2 htags
    have hfilterUpd : List.filter (fun r : HistoryRow =>
        r.textQuery = C.textQuery && r.mode = C.mode
          && storedTagsOf ⟨st.rows ++ [updRow], newTR, st1.nextId⟩ r.id
            = C.tagIds) [updRow] = [updRow] := by
      have hu : storedTagsOf ⟨st.rows ++ [updRow], newTR, st1.nextId⟩ updRow.id
          = C.tagIds := by
        show sortedTagsIn newTR updRow.id = _
        rw [show updRow.id = st.nextId from rfl]
        exact htags_new
      simp [hupdef] at hu ⊢
      simp [hu]
    rw [List.filter_append, hfilterOld, hfilterUpd]
    simp [hupdef]
  · intro q l1 l2 m hperm
    unfold searchCriteriaNew
    congr 1
    apply List.eq_of_perm_of_sorted
      (((List.perm_insertionSort _ l1).trans hperm).trans
        (List.perm_insertionSort _ l2).symm)
      (List.sorted_insertionSort _ l1)
      (List.sorted_insertionSort _ l2)

/-- C5 witness: the double-save theorem applied from the empty store. -/
theorem C5_history_dedup_witness :
    matchingRows
      (historySave ⟨none, [3, 5], SearchMode.and⟩ 20
        (historySave ⟨none, [3, 5], SearchMode.and⟩ 10 ⟨[], [], 1⟩))
      ⟨none, [3, 5], SearchMode.and⟩
      = [⟨1, none, SearchMode.and, 20⟩] :=
  C5_history_dedup.1 ⟨[], [], 1⟩ ⟨none, [3, 5], SearchMode.and⟩ 10 20
    (by simp) (by simp) (by decide) (by decide)

/-- C8 witness: the first-time theorem applied at a concrete fixture. -/
theorem C8_first_time_drive_witness :
    ∃ result world2,
      usnRefresh usnFixtureEnv ['C'] true true usnFixtureWorld
        = Except.ok (result, world2) ∧
      result.itemsUpdated = [] ∧
      result.firstTimeDrives = [driveLabel 'C'] ∧
      loadUsnState world2 'C' = some (100, 7) :=
  C8_first_time_drive usnFixtureEnv 'C' usnFixtureWorld true true
    ⟨7, 0, 100⟩ rfl rfl rfl
